import Mathlib

/-!
Verification of the progressive, segment-based video analysis and
result-aggregation pipeline of the Veritas AI detector
(`handleProgressiveVideoAnalysis` in `src/App.tsx`, together with the data
model of `src/types.ts`).

The embedding is shallow: JavaScript numbers are modelled as rationals
(`ℚ`), `Math.round` as `⌊x + 1/2⌋` (which is exactly what `Math.round`
computes on non-negative finite values), the insertion-ordered JavaScript
`Map` as a list with in-place overwrite, the (spec-mandated stable)
`Array.prototype.sort` as a stable insertion sort, and the asynchronous
environment (frame capture, remote classification) as an oracle
`ℕ → FrameOutcome` assigning to each schedule position the outcome the
environment produced for it.  A thrown exception from the classifier is
modelled by the `classifyError` outcome, which makes the session loop stop
and report the message, exactly as the `try`/`catch` in the source does.
-/

namespace Veritas

/-- `KeyFeature` from `src/types.ts`: a named finding with an impact score. -/
structure KeyFeature where
  feature : String
  impactScore : ℚ
deriving DecidableEq

/-- `AnalysisResult` from `src/types.ts` (field order as in the source). -/
structure AnalysisResult where
  probabilityAI : ℚ
  label : String
  confidence : ℚ
  reasoning : String
  keyFeatures : List KeyFeature
deriving DecidableEq

/-- The fields of `QueueItem` (from `src/types.ts`) that the progressive
video analysis reads or writes. -/
structure QueueItem where
  id : String
  status : String
  previewUrl : Option String
  result : Option AnalysisResult
  error : Option String
  segmentsProcessed : Option ℕ
  totalSegments : Option ℕ
deriving DecidableEq

/-- `updateQueueItem` from `src/App.tsx` line 635: map over the queue,
merging the update into the item with the given id (a no-op when no item
has that id). -/
def updateQueueItem (queue : List QueueItem) (itemId : String)
    (upd : QueueItem → QueueItem) : List QueueItem :=
  queue.map (fun it => if it.id = itemId then upd it else it)

/-- JavaScript `Math.round` on non-negative finite numbers: `⌊x + 1/2⌋`.
This agrees with Mathlib's `round`. -/
def mathRound (x : ℚ) : ℚ := ((round x : ℤ) : ℚ)

lemma mathRound_nonneg {x : ℚ} (h : 0 ≤ x) : 0 ≤ mathRound x := by
  unfold mathRound
  rw [round_eq]
  have h2 : (0 : ℚ) ≤ x + 1 / 2 := by linarith
  exact_mod_cast Int.floor_nonneg.mpr h2

lemma mathRound_le_hundred {x : ℚ} (h : x ≤ 100) : mathRound x ≤ 100 := by
  unfold mathRound
  rw [round_eq]
  have h2 : x + 1 / 2 < (101 : ℤ) := by push_cast; linarith
  have h3 : ⌊x + 1 / 2⌋ < (101 : ℤ) := Int.floor_lt.mpr h2
  have h4 : ⌊x + 1 / 2⌋ ≤ (100 : ℤ) := by omega
  exact_mod_cast h4

/-! ## Frame sampler

`src/App.tsx` lines 835-842:

```
const duration = video.duration || 1;
const interval = Math.max(1, advancedConfig.sampleInterval);
const timestamps: number[] = [];
for(let t = 0; t < duration; t += interval) { timestamps.push(t); }
if (timestamps.length === 0) timestamps.push(0);
```

The `for` loop is embedded with explicit fuel so that it stays a structural
recursion the kernel can evaluate; `sampleLoop` supplies provably
sufficient fuel, and `sampleLoop_eq` recovers the loop's one-step
unfolding.  The guard carries `1 ≤ step` (established by the `Math.max`
clamp at every call site) because a non-positive step would make the
source loop diverge. -/

def sampleLoopFuel : ℕ → ℚ → ℚ → ℚ → List ℚ
  | 0, _, _, _ => []
  | fuel + 1, duration, step, t =>
    if t < duration ∧ 1 ≤ step then t :: sampleLoopFuel fuel duration step (t + step)
    else []

lemma ceil_toNat_step (duration step t : ℚ) (h1 : t < duration) (h2 : 1 ≤ step) :
    (⌈duration - (t + step)⌉).toNat < (⌈duration - t⌉).toNat := by
  have hpos : (0 : ℚ) < duration - t := by linarith
  have hceil : (0 : ℤ) < ⌈duration - t⌉ := Int.ceil_pos.mpr hpos
  have hle : duration - (t + step) ≤ (duration - t) - 1 := by linarith
  have hmono : ⌈duration - (t + step)⌉ ≤ ⌈(duration - t) - 1⌉ := Int.ceil_le_ceil hle
  have hsub : ⌈(duration - t) - 1⌉ = ⌈duration - t⌉ - 1 := by
    exact_mod_cast Int.ceil_sub_int (duration - t) 1
  omega

lemma sampleLoopFuel_congr :
    ∀ (fuel fuel' : ℕ) (duration step t : ℚ),
      (⌈duration - t⌉).toNat ≤ fuel → (⌈duration - t⌉).toNat ≤ fuel' →
      sampleLoopFuel fuel duration step t = sampleLoopFuel fuel' duration step t := by
  intro fuel
  induction fuel with
  | zero =>
    intro fuel' duration step t h h'
    have h0 : (⌈duration - t⌉).toNat = 0 := Nat.le_zero.mp h
    have hnot : ¬ t < duration := by
      intro hlt
      have hpos : (0 : ℚ) < duration - t := by linarith
      have hceil : (0 : ℤ) < ⌈duration - t⌉ := Int.ceil_pos.mpr hpos
      omega
    cases fuel' with
    | zero => rfl
    | succ m =>
      simp only [sampleLoopFuel]
      rw [if_neg]
      intro hc
      exact hnot hc.1
  | succ n ih =>
    intro fuel' duration step t h h'
    cases fuel' with
    | zero =>
      have h0 : (⌈duration - t⌉).toNat = 0 := Nat.le_zero.mp h'
      have hnot : ¬ t < duration := by
        intro hlt
        have hpos : (0 : ℚ) < duration - t := by linarith
        have hceil : (0 : ℤ) < ⌈duration - t⌉ := Int.ceil_pos.mpr hpos
        omega
      simp only [sampleLoopFuel]
      rw [if_neg]
      intro hc
      exact hnot hc.1
    | succ m =>
      simp only [sampleLoopFuel]
      by_cases hc : t < duration ∧ 1 ≤ step
      · rw [if_pos hc, if_pos hc]
        have hstep := ceil_toNat_step duration step t hc.1 hc.2
        have hn : (⌈duration - (t + step)⌉).toNat ≤ n := by omega
        have hm : (⌈duration - (t + step)⌉).toNat ≤ m := by omega
        rw [ih m duration step (t + step) hn hm]
      · rw [if_neg hc, if_neg hc]

/-- The sampling loop of `src/App.tsx` lines 837-840. -/
def sampleLoop (duration step t : ℚ) : List ℚ :=
  sampleLoopFuel ((⌈duration - t⌉).toNat) duration step t

lemma sampleLoop_eq (duration step t : ℚ) :
    sampleLoop duration step t =
      if t < duration ∧ 1 ≤ step then t :: sampleLoop duration step (t + step)
      else [] := by
  unfold sampleLoop
  by_cases hc : t < duration ∧ 1 ≤ step
  · have hpos : (0 : ℚ) < duration - t := by linarith [hc.1]
    have hceil : (0 : ℤ) < ⌈duration - t⌉ := Int.ceil_pos.mpr hpos
    rcases hn : (⌈duration - t⌉).toNat with _ | m
    · omega
    · simp only [sampleLoopFuel, if_pos hc]
      have hstep := ceil_toNat_step duration step t hc.1 hc.2
      rw [hn] at hstep
      exact congrArg (t :: ·)
        (sampleLoopFuel_congr m _ duration step (t + step) (by omega) (le_refl _))
  · rw [if_neg hc]
    rcases (⌈duration - t⌉).toNat with _ | m
    · rfl
    · simp only [sampleLoopFuel, if_neg hc]

lemma sampleLoop_pos {duration step t : ℚ} (h1 : t < duration) (h2 : 1 ≤ step) :
    sampleLoop duration step t = t :: sampleLoop duration step (t + step) := by
  rw [sampleLoop_eq, if_pos ⟨h1, h2⟩]

lemma sampleLoop_neg {duration step t : ℚ} (h : ¬ (t < duration ∧ 1 ≤ step)) :
    sampleLoop duration step t = [] := by
  rw [sampleLoop_eq, if_neg h]

/-- The full sample schedule computed by `src/App.tsx` lines 835-842,
including the `video.duration || 1` coercion of a falsy (zero) duration
and the `Math.max(1, interval)` clamp. -/
def schedule (videoDuration sampleInterval : ℚ) : List ℚ :=
  let duration := if videoDuration = 0 then 1 else videoDuration
  let interval := max 1 sampleInterval
  let ts := sampleLoop duration interval 0
  if ts.isEmpty then [0] else ts

/-! ## Evidence pool: deduplication and ranking

`src/App.tsx` lines 900-903 (and identically 927-929):

```
const uniqueFeatures = Array.from(new Map(allKeyFeatures.map(f => [f.feature, f])).values())
                       .sort((a, b) => b.impactScore - a.impactScore)
                       .slice(0, 6);
```

A JavaScript `Map` keeps keys in insertion order and, when a key is set
again, overwrites the value in place (the key keeps its original
position).  `Array.prototype.sort` is guaranteed stable, so the sort is
modelled by a stable insertion sort that orders by `impactScore`
descending and keeps insertion order among equal scores. -/

/-- One `Map.set` step: overwrite in place if the feature name is present,
append otherwise. -/
def mapInsert (acc : List KeyFeature) (f : KeyFeature) : List KeyFeature :=
  if f.feature ∈ acc.map (fun g => g.feature) then
    acc.map (fun g => if g.feature = f.feature then f else g)
  else acc ++ [f]

/-- `Array.from(new Map(allKeyFeatures.map(f => [f.feature, f])).values())`. -/
def dedupByFeature (fs : List KeyFeature) : List KeyFeature :=
  fs.foldl mapInsert []

/-- Stable insertion of one element into a list sorted by `impactScore`
descending: the element goes after every element with a score `≥` its own. -/
def insertDesc (f : KeyFeature) : List KeyFeature → List KeyFeature
  | [] => [f]
  | g :: gs => if f.impactScore ≤ g.impactScore then g :: insertDesc f gs
               else f :: g :: gs

/-- The stable `sort((a, b) => b.impactScore - a.impactScore)`. -/
def sortByImpactDesc (l : List KeyFeature) : List KeyFeature :=
  l.foldl (fun acc f => insertDesc f acc) []

/-- The whole `uniqueFeatures` computation: dedup, sort descending,
`slice(0, 6)`. -/
def uniqueFeatures (allKeyFeatures : List KeyFeature) : List KeyFeature :=
  (sortByImpactDesc (dedupByFeature allKeyFeatures)).take 6

/-! Spec-side characterisations for the refinement claim about the
evidence pool (these three follow the wording of the spec, not the
source, and are proved equivalent to the source computation). -/

/-- Modelled from the spec: the distinct feature names in first-occurrence
order ("ties broken by insertion order with the first-seen feature name
taking the earlier position"); `seen` accumulates the names already
emitted. -/
def newNames (seen : List String) : List String → List String
  | [] => []
  | n :: ns => if n ∈ seen then newNames seen ns
               else n :: newNames (seen ++ [n]) ns

/-- First entry with the given feature name (what a lookup in the
deduplicated pool returns). -/
def findByName : List KeyFeature → String → Option KeyFeature
  | [], _ => none
  | g :: gs, n => if g.feature = n then some g else findByName gs n

/-- Modelled from the spec: the *last* entry with the given feature name
("last writer wins"). -/
def lastEntryFor : List KeyFeature → String → Option KeyFeature
  | [], _ => none
  | g :: gs, n =>
    match lastEntryFor gs n with
    | some e => some e
    | none => if g.feature = n then some g else none

/-! ## Progressive session controller

`src/App.tsx` lines 820-957.  The environment (frame capture and the
remote classifier) is an oracle `ℕ → FrameOutcome` giving, for each
schedule position, what happened to that frame:

* `captureFailed` — `captureFrame` resolved to the empty string (the
  `if (!base64Frame) continue;` path, line 880);
* `classified r` — `detectAIContent` returned `r`;
* `classifyError msg` — `detectAIContent` threw an error with message
  `msg` (which propagates to the `catch` at line 949). -/

inductive FrameOutcome where
  | captureFailed : FrameOutcome
  | classified (r : AnalysisResult) : FrameOutcome
  | classifyError (msg : String) : FrameOutcome
deriving DecidableEq

def isClassified : FrameOutcome → Bool
  | .classified _ => true
  | _ => false

def isClassifyError : FrameOutcome → Bool
  | .classifyError _ => true
  | _ => false

/-- The running aggregates of lines 851-854. -/
structure LoopState where
  aggregatedProb : ℚ
  aggregatedConf : ℚ
  allKeyFeatures : List KeyFeature
  lastResult : Option AnalysisResult
deriving DecidableEq

/-- The fresh aggregate state at session start. -/
def initState : LoopState := ⟨0, 0, [], none⟩

/-- Folding one frame result into the aggregates (lines 890-894). -/
def foldFrame (st : LoopState) (r : AnalysisResult) : LoopState :=
  ⟨st.aggregatedProb + r.probabilityAI, st.aggregatedConf + r.confidence,
   st.allKeyFeatures ++ r.keyFeatures, some r⟩

/-- The intermediate `progressiveResult` of lines 896-911, published after
each successful fold.  `count` is `i + 1` in the source — the 1-based
index of the current schedule position, not the number of folds. -/
def progressiveResult (count tot : ℕ) (st : LoopState) (frameResult : AnalysisResult) :
    AnalysisResult :=
  let currentAvgProb := mathRound (st.aggregatedProb / (count : ℚ))
  let currentAvgConf := mathRound (st.aggregatedConf / (count : ℚ))
  { probabilityAI := currentAvgProb
    label := if 50 < currentAvgProb then "Likely AI" else "Likely Human"
    confidence := currentAvgConf
    reasoning := "Progressive analysis in progress (" ++ toString count ++ "/"
      ++ toString tot ++ " segments). Latest frame finding: "
      ++ frameResult.reasoning.take 100 ++ "..."
    keyFeatures := uniqueFeatures st.allKeyFeatures }

/-- The `finalResult` of lines 922-937; the divisor is `totalSegments`. -/
def finalAnalysisResult (tot : ℕ) (st : LoopState) : AnalysisResult :=
  let finalProb := mathRound (st.aggregatedProb / (tot : ℚ))
  let finalConf := mathRound (st.aggregatedConf / (tot : ℚ))
  { probabilityAI := finalProb
    label := if 50 < finalProb then "Likely AI"
             else if 30 < finalProb then "Mixed/Uncertain" else "Likely Human"
    confidence := finalConf
    reasoning := "Comprehensive progressive analysis of " ++ toString tot
      ++ " video segments completed. The aggregate probability suggests "
      ++ (if 50 < finalProb then "artificial generation" else "human origin")
      ++ ". Key artifacts detected across frames have been summarized."
    keyFeatures := uniqueFeatures st.allKeyFeatures }

/-- Everything the `for` loop of lines 876-919 produces: the aggregate
state, the queue after all `updateQueueItem` calls, the timestamps for
which a classification call was dispatched, the intermediate results
published via `setResult`/`updateQueueItem` (paired with the
`segmentsProcessed` value published alongside), and the message of the
exception that escaped the loop, if any. -/
structure LoopOut where
  st : LoopState
  queue : List QueueItem
  dispatched : List ℚ
  intermediates : List (AnalysisResult × ℕ)
  thrown : Option String
deriving DecidableEq

/-- The `for` loop of lines 876-919, processing the timestamps from
schedule position `i` onwards. -/
def sessionLoop (itemId : String) (tot : ℕ) (oc : ℕ → FrameOutcome) :
    List ℚ → ℕ → LoopState → List QueueItem → LoopOut
  | [], _, st, q => ⟨st, q, [], [], none⟩
  | t :: ts, i, st, q =>
    match oc i with
    | .captureFailed => sessionLoop itemId tot oc ts (i + 1) st q
    | .classifyError msg => ⟨st, q, [t], [], some msg⟩
    | .classified r =>
      let st' := foldFrame st r
      let count := i + 1
      let prog := progressiveResult count tot st' r
      let q' := updateQueueItem q itemId
        (fun it => { it with segmentsProcessed := some count, result := some prog })
      let out := sessionLoop itemId tot oc ts (i + 1) st' q'
      ⟨out.st, out.queue, t :: out.dispatched, (prog, count) :: out.intermediates, out.thrown⟩

/-- The same loop interleaved with a `removeFile`/queue-clear action
(`src/App.tsx` lines 800-817) performed by the environment when the loop
is about to process schedule position `cancelAt`: the item is filtered
out of the queue at that suspension point.  The loop code itself never
inspects the queue or any cancellation flag, so everything except the
queue proceeds exactly as in `sessionLoop`. -/
def sessionLoopCancelAt (cancelAt : ℕ) (itemId : String) (tot : ℕ)
    (oc : ℕ → FrameOutcome) :
    List ℚ → ℕ → LoopState → List QueueItem → LoopOut
  | [], _, st, q => ⟨st, q, [], [], none⟩
  | t :: ts, i, st, q =>
    let q0 := if i = cancelAt then q.filter (fun it => it.id ≠ itemId) else q
    match oc i with
    | .captureFailed => sessionLoopCancelAt cancelAt itemId tot oc ts (i + 1) st q0
    | .classifyError msg => ⟨st, q0, [t], [], some msg⟩
    | .classified r =>
      let st' := foldFrame st r
      let count := i + 1
      let prog := progressiveResult count tot st' r
      let q' := updateQueueItem q0 itemId
        (fun it => { it with segmentsProcessed := some count, result := some prog })
      let out := sessionLoopCancelAt cancelAt itemId tot oc ts (i + 1) st' q'
      ⟨out.st, out.queue, t :: out.dispatched, (prog, count) :: out.intermediates, out.thrown⟩

/-- The externally observable outcome of one `handleProgressiveVideoAnalysis`
call: the final queue, the dispatched classification calls, the published
intermediate results, and the published final result (also handed to the
history writer), if any. -/
structure RunOut where
  queue : List QueueItem
  dispatched : List ℚ
  intermediates : List (AnalysisResult × ℕ)
  finalPublished : Option AnalysisResult
deriving DecidableEq

/-- `handleProgressiveVideoAnalysis` (lines 820-957).  The guard models
`if (!item.previewUrl) return;` (a missing or empty preview URL is
falsy).  After the loop, `if (lastResult)` selects finalization; an
exception caught by the `catch` marks the item `error`. -/
def handleProgressiveVideoAnalysis (item : QueueItem) (videoDuration sampleInterval : ℚ)
    (oc : ℕ → FrameOutcome) (queue : List QueueItem) : RunOut :=
  if item.previewUrl.getD "" = "" then
    ⟨queue, [], [], none⟩
  else
    let timestamps := schedule videoDuration sampleInterval
    let totalSegments := timestamps.length
    let q1 := updateQueueItem queue item.id
      (fun it => { it with totalSegments := some totalSegments,
                           segmentsProcessed := some 0, status := "analyzing" })
    let out := sessionLoop item.id totalSegments oc timestamps 0 initState q1
    match out.thrown with
    | some msg =>
      let errMsg := if msg = "" then "Progressive analysis failed" else msg
      ⟨updateQueueItem out.queue item.id
          (fun it => { it with status := "error", error := some errMsg }),
        out.dispatched, out.intermediates, none⟩
    | none =>
      match out.st.lastResult with
      | none => ⟨out.queue, out.dispatched, out.intermediates, none⟩
      | some _ =>
        let fin := finalAnalysisResult totalSegments out.st
        ⟨updateQueueItem out.queue item.id
            (fun it => { it with status := "done", result := some fin,
                                 segmentsProcessed := some totalSegments }),
          out.dispatched, out.intermediates, some fin⟩

/-! ## Characterisations of a run in terms of the outcome oracle -/

/-- Probability contributed by one outcome (0 when nothing is folded). -/
def probOf : FrameOutcome → ℚ
  | .classified r => r.probabilityAI
  | _ => 0

def confOf : FrameOutcome → ℚ
  | .classified r => r.confidence
  | _ => 0

def kfOf : FrameOutcome → List KeyFeature
  | .classified r => r.keyFeatures
  | _ => []

/-- Sum of the folded probabilities over schedule positions `i ≤ j < i + n`. -/
def sumProbFrom (oc : ℕ → FrameOutcome) : ℕ → ℕ → ℚ
  | _, 0 => 0
  | i, n + 1 => probOf (oc i) + sumProbFrom oc (i + 1) n

def sumConfFrom (oc : ℕ → FrameOutcome) : ℕ → ℕ → ℚ
  | _, 0 => 0
  | i, n + 1 => confOf (oc i) + sumConfFrom oc (i + 1) n

/-- Concatenation of the folded key features over positions `i ≤ j < i + n`. -/
def kfFrom (oc : ℕ → FrameOutcome) : ℕ → ℕ → List KeyFeature
  | _, 0 => []
  | i, n + 1 => kfOf (oc i) ++ kfFrom oc (i + 1) n

/-- The last folded frame result over positions `i ≤ j < i + n`, starting
from `b`. -/
def lastFoldedFrom (oc : ℕ → FrameOutcome) : ℕ → ℕ → Option AnalysisResult → Option AnalysisResult
  | _, 0, b => b
  | i, n + 1, b =>
    lastFoldedFrom oc (i + 1) n
      (match oc i with
       | .classified r => some r
       | _ => b)

/-- The `segmentsProcessed` values published by the loop from position `i`
over `n` positions: `j + 1` for every classified position `j`, stopping at
the first thrown classification error. -/
def countsFrom (oc : ℕ → FrameOutcome) : ℕ → ℕ → List ℕ
  | _, 0 => []
  | i, n + 1 =>
    match oc i with
    | .captureFailed => countsFrom oc (i + 1) n
    | .classifyError _ => []
    | .classified _ => (i + 1) :: countsFrom oc (i + 1) n

/-- The timestamps dispatched to the classifier when no classification
error occurs: every scheduled timestamp whose capture succeeded. -/
def dispatchedFrom (oc : ℕ → FrameOutcome) : ℕ → List ℚ → List ℚ
  | _, [] => []
  | i, t :: ts =>
    match oc i with
    | .captureFailed => dispatchedFrom oc (i + 1) ts
    | _ => t :: dispatchedFrom oc (i + 1) ts

lemma sessionLoop_nil (itemId : String) (tot : ℕ) (oc : ℕ → FrameOutcome)
    (i : ℕ) (st : LoopState) (q : List QueueItem) :
    sessionLoop itemId tot oc [] i st q = ⟨st, q, [], [], none⟩ := rfl

lemma sessionLoop_cons_captureFailed {oc : ℕ → FrameOutcome} {i : ℕ}
    (itemId : String) (tot : ℕ) (t : ℚ) (ts : List ℚ) (st : LoopState)
    (q : List QueueItem) (h : oc i = .captureFailed) :
    sessionLoop itemId tot oc (t :: ts) i st q
      = sessionLoop itemId tot oc ts (i + 1) st q := by
  simp only [sessionLoop, h]

lemma sessionLoop_cons_classifyError {oc : ℕ → FrameOutcome} {i : ℕ} {msg : String}
    (itemId : String) (tot : ℕ) (t : ℚ) (ts : List ℚ) (st : LoopState)
    (q : List QueueItem) (h : oc i = .classifyError msg) :
    sessionLoop itemId tot oc (t :: ts) i st q = ⟨st, q, [t], [], some msg⟩ := by
  simp only [sessionLoop, h]

lemma sessionLoop_cons_classified {oc : ℕ → FrameOutcome} {i : ℕ} {r : AnalysisResult}
    (itemId : String) (tot : ℕ) (t : ℚ) (ts : List ℚ) (st : LoopState)
    (q : List QueueItem) (h : oc i = .classified r) :
    sessionLoop itemId tot oc (t :: ts) i st q
      = (let st' := foldFrame st r
         let prog := progressiveResult (i + 1) tot st' r
         let q' := updateQueueItem q itemId
           (fun it => { it with segmentsProcessed := some (i + 1), result := some prog })
         let out := sessionLoop itemId tot oc ts (i + 1) st' q'
         ⟨out.st, out.queue, t :: out.dispatched, (prog, i + 1) :: out.intermediates,
           out.thrown⟩) := by
  simp only [sessionLoop, h]

lemma getLast?_cons_of_ne {α : Type} (a : α) {l : List α} (h : l ≠ []) :
    (a :: l).getLast? = l.getLast? := by
  cases l with
  | nil => exact absurd rfl h
  | cons b l => exact List.getLast?_cons_cons

/-- All fields of the loop state after an error-free pass over `ts`. -/
lemma sessionLoop_noThrow (itemId : String) (tot : ℕ) (oc : ℕ → FrameOutcome) :
    ∀ (ts : List ℚ) (i : ℕ) (st : LoopState) (q : List QueueItem),
      (∀ j < ts.length, isClassifyError (oc (i + j)) = false) →
      (sessionLoop itemId tot oc ts i st q).thrown = none ∧
      (sessionLoop itemId tot oc ts i st q).st.aggregatedProb
        = st.aggregatedProb + sumProbFrom oc i ts.length ∧
      (sessionLoop itemId tot oc ts i st q).st.aggregatedConf
        = st.aggregatedConf + sumConfFrom oc i ts.length ∧
      (sessionLoop itemId tot oc ts i st q).st.allKeyFeatures
        = st.allKeyFeatures ++ kfFrom oc i ts.length ∧
      (sessionLoop itemId tot oc ts i st q).st.lastResult
        = lastFoldedFrom oc i ts.length st.lastResult ∧
      (sessionLoop itemId tot oc ts i st q).dispatched = dispatchedFrom oc i ts := by
  intro ts
  induction ts with
  | nil =>
    intro i st q _
    simp [sessionLoop, sumProbFrom, sumConfFrom, kfFrom, lastFoldedFrom, dispatchedFrom]
  | cons t ts ih =>
    intro i st q hno
    have h0 : isClassifyError (oc (i + 0)) = false := hno 0 (by simp)
    have hno' : ∀ j < ts.length, isClassifyError (oc (i + 1 + j)) = false := by
      intro j hj
      have := hno (j + 1) (by simpa using Nat.succ_lt_succ hj)
      simpa [Nat.add_assoc, Nat.add_comm 1 j] using this
    cases hoc : oc i with
    | captureFailed =>
      have := ih (i + 1) st q hno'
      simp only [sessionLoop, hoc]
      refine ⟨this.1, ?_, ?_, ?_, ?_, ?_⟩
      · rw [this.2.1]
        simp [List.length_cons, sumProbFrom, hoc, probOf]
      · rw [this.2.2.1]
        simp [List.length_cons, sumConfFrom, hoc, confOf]
      · rw [this.2.2.2.1]
        simp [List.length_cons, kfFrom, hoc, kfOf]
      · rw [this.2.2.2.2.1]
        simp [List.length_cons, lastFoldedFrom, hoc]
      · rw [this.2.2.2.2.2]
        simp [dispatchedFrom, hoc]
    | classifyError msg =>
      exfalso
      have h0' : isClassifyError (oc i) = false := by simpa using h0
      rw [hoc] at h0'
      simp [isClassifyError] at h0'
    | classified r =>
      have := ih (i + 1) (foldFrame st r)
        (updateQueueItem q itemId
          (fun it => { it with segmentsProcessed := some (i + 1),
                               result := some (progressiveResult (i + 1) tot (foldFrame st r) r) }))
        hno'
      simp only [sessionLoop, hoc]
      refine ⟨this.1, ?_, ?_, ?_, ?_, ?_⟩
      · rw [this.2.1]
        simp [List.length_cons, sumProbFrom, hoc, probOf, foldFrame]
        ring
      · rw [this.2.2.1]
        simp [List.length_cons, sumConfFrom, hoc, confOf, foldFrame]
        ring
      · rw [this.2.2.2.1]
        simp [List.length_cons, kfFrom, hoc, kfOf, foldFrame]
      · rw [this.2.2.2.2.1]
        simp [List.length_cons, lastFoldedFrom, hoc, foldFrame]
      · rw [this.2.2.2.2.2]
        simp [dispatchedFrom, hoc]

/-- The published `segmentsProcessed` values of any run (error or not)
are `countsFrom`: the 1-based schedule positions of the folded frames. -/
lemma sessionLoop_counts (itemId : String) (tot : ℕ) (oc : ℕ → FrameOutcome) :
    ∀ (ts : List ℚ) (i : ℕ) (st : LoopState) (q : List QueueItem),
      (sessionLoop itemId tot oc ts i st q).intermediates.map (fun pr => pr.2)
        = countsFrom oc i ts.length := by
  intro ts
  induction ts with
  | nil => intro i st q; simp [sessionLoop, countsFrom]
  | cons t ts ih =>
    intro i st q
    cases hoc : oc i with
    | captureFailed =>
      simp only [sessionLoop, hoc, List.length_cons, countsFrom]
      exact ih (i + 1) st q
    | classifyError msg =>
      simp [sessionLoop, hoc, countsFrom]
    | classified r =>
      simp only [sessionLoop, hoc, List.length_cons, countsFrom, List.map_cons]
      exact congrArg _ (ih (i + 1) _ _)

/-- A pass in which every capture fails leaves everything unchanged:
nothing is dispatched, published or folded. -/
lemma sessionLoop_allFail (itemId : String) (tot : ℕ) (oc : ℕ → FrameOutcome) :
    ∀ (ts : List ℚ) (i : ℕ) (st : LoopState) (q : List QueueItem),
      (∀ j < ts.length, oc (i + j) = .captureFailed) →
      sessionLoop itemId tot oc ts i st q = ⟨st, q, [], [], none⟩ := by
  intro ts
  induction ts with
  | nil => intro i st q _; simp [sessionLoop]
  | cons t ts ih =>
    intro i st q hall
    have h0 : oc i = .captureFailed := by simpa using hall 0 (by simp)
    have hall' : ∀ j < ts.length, oc (i + 1 + j) = .captureFailed := by
      intro j hj
      have := hall (j + 1) (by simpa using Nat.succ_lt_succ hj)
      simpa [Nat.add_assoc, Nat.add_comm 1 j] using this
    simp only [sessionLoop, h0]
    exact ih (i + 1) st q hall'

/-- In an all-successful pass over a non-empty schedule, the *last*
published intermediate result is computed from the final aggregate state
with `count = i + ts.length`, and the loop does not throw. -/
lemma sessionLoop_allSucc_last (itemId : String) (tot : ℕ) (oc : ℕ → FrameOutcome)
    (frames : ℕ → AnalysisResult) :
    ∀ (ts : List ℚ) (i : ℕ) (st : LoopState) (q : List QueueItem),
      ts ≠ [] →
      (∀ j < ts.length, oc (i + j) = .classified (frames (i + j))) →
      (sessionLoop itemId tot oc ts i st q).intermediates.getLast?
          = some (progressiveResult (i + ts.length) tot
                    (sessionLoop itemId tot oc ts i st q).st
                    (frames (i + ts.length - 1)), i + ts.length) ∧
        (sessionLoop itemId tot oc ts i st q).thrown = none ∧
        (sessionLoop itemId tot oc ts i st q).st.lastResult
          = some (frames (i + ts.length - 1)) := by
  intro ts
  induction ts with
  | nil => intro i st q hne _; exact absurd rfl hne
  | cons t ts ih =>
    intro i st q _ hall
    have h0 : oc i = .classified (frames i) := by simpa using hall 0 (by simp)
    have hall' : ∀ j < ts.length, oc (i + 1 + j) = .classified (frames (i + 1 + j)) := by
      intro j hj
      have := hall (j + 1) (by simpa using Nat.succ_lt_succ hj)
      simpa [Nat.add_assoc, Nat.add_comm 1 j] using this
    rw [sessionLoop_cons_classified itemId tot t ts st q h0]
    simp only []
    cases ts with
    | nil =>
      rw [sessionLoop_nil]
      simp [progressiveResult, foldFrame]
    | cons t' ts' =>
      set st' := foldFrame st (frames i) with hst'
      set q' := updateQueueItem q itemId
        (fun it => { it with segmentsProcessed := some (i + 1),
                             result := some (progressiveResult (i + 1) tot st' (frames i)) })
        with hq'
      have ihr := ih (i + 1) st' q' (by simp) hall'
      have hne2 : (sessionLoop itemId tot oc (t' :: ts') (i + 1) st' q').intermediates ≠ [] := by
        intro hnil
        rw [hnil] at ihr
        simp at ihr
      have hlen : i + 1 + (t' :: ts').length = i + (t :: t' :: ts').length := by
        simp; omega
      have hlen2 : i + 1 + (t' :: ts').length - 1 = i + (t :: t' :: ts').length - 1 := by
        simp; omega
      refine ⟨?_, ihr.2.1, ?_⟩
      · show ((progressiveResult (i + 1) tot st' (frames i), i + 1)
            :: (sessionLoop itemId tot oc (t' :: ts') (i + 1) st' q').intermediates).getLast?
          = _
        rw [getLast?_cons_of_ne _ hne2, ihr.1, hlen2, hlen]
      · show (sessionLoop itemId tot oc (t' :: ts') (i + 1) st' q').st.lastResult = _
        rw [ihr.2.2, hlen2]

/-- The first thrown classification error aborts the whole pass: the
aggregates, queue and published intermediates are those accumulated over
the error-free initial segment, the failing frame is dispatched but not
folded, and no later timestamp is processed. -/
lemma sessionLoop_error_stop (itemId : String) (tot : ℕ) (oc : ℕ → FrameOutcome) :
    ∀ (ts₁ : List ℚ) (t : ℚ) (ts₂ : List ℚ) (i : ℕ) (st : LoopState)
      (q : List QueueItem) (msg : String),
      (∀ j < ts₁.length, isClassifyError (oc (i + j)) = false) →
      oc (i + ts₁.length) = .classifyError msg →
      sessionLoop itemId tot oc (ts₁ ++ t :: ts₂) i st q
        = ⟨(sessionLoop itemId tot oc ts₁ i st q).st,
           (sessionLoop itemId tot oc ts₁ i st q).queue,
           (sessionLoop itemId tot oc ts₁ i st q).dispatched ++ [t],
           (sessionLoop itemId tot oc ts₁ i st q).intermediates,
           some msg⟩ := by
  intro ts₁
  induction ts₁ with
  | nil =>
    intro t ts₂ i st q msg _ hmsg
    simp only [List.nil_append, List.length_nil, Nat.add_zero] at *
    rw [sessionLoop_cons_classifyError itemId tot t ts₂ st q hmsg, sessionLoop_nil]
    simp
  | cons t₁ ts₁ ih =>
    intro t ts₂ i st q msg hno hmsg
    have h0 : isClassifyError (oc i) = false := by simpa using hno 0 (by simp)
    have hno' : ∀ j < ts₁.length, isClassifyError (oc (i + 1 + j)) = false := by
      intro j hj
      have := hno (j + 1) (by simpa using Nat.succ_lt_succ hj)
      simpa [Nat.add_assoc, Nat.add_comm 1 j] using this
    have hmsg' : oc (i + 1 + ts₁.length) = .classifyError msg := by
      have : i + 1 + ts₁.length = i + (t₁ :: ts₁).length := by simp; omega
      rw [this]; exact hmsg
    cases hoc : oc i with
    | captureFailed =>
      rw [List.cons_append,
        sessionLoop_cons_captureFailed itemId tot t₁ (ts₁ ++ t :: ts₂) st q hoc,
        sessionLoop_cons_captureFailed itemId tot t₁ ts₁ st q hoc]
      exact ih t ts₂ (i + 1) st q msg hno' hmsg'
    | classifyError m =>
      rw [hoc] at h0
      simp [isClassifyError] at h0
    | classified r =>
      rw [List.cons_append,
        sessionLoop_cons_classified itemId tot t₁ (ts₁ ++ t :: ts₂) st q hoc,
        sessionLoop_cons_classified itemId tot t₁ ts₁ st q hoc]
      simp only []
      rw [ih t ts₂ (i + 1) _ _ msg hno' hmsg']
      simp

/-- The loop never reads the queue it updates: every field except the
queue is independent of the initial queue, and is unchanged when the
environment removes the item from the queue at an arbitrary suspension
point (`sessionLoopCancelAt`). -/
lemma sessionLoopCancelAt_fields (cancelAt : ℕ) (itemId : String) (tot : ℕ)
    (oc : ℕ → FrameOutcome) :
    ∀ (ts : List ℚ) (i : ℕ) (st : LoopState) (q q' : List QueueItem),
      (sessionLoopCancelAt cancelAt itemId tot oc ts i st q).st
          = (sessionLoop itemId tot oc ts i st q').st ∧
        (sessionLoopCancelAt cancelAt itemId tot oc ts i st q).dispatched
          = (sessionLoop itemId tot oc ts i st q').dispatched ∧
        (sessionLoopCancelAt cancelAt itemId tot oc ts i st q).intermediates
          = (sessionLoop itemId tot oc ts i st q').intermediates ∧
        (sessionLoopCancelAt cancelAt itemId tot oc ts i st q).thrown
          = (sessionLoop itemId tot oc ts i st q').thrown := by
  intro ts
  induction ts with
  | nil => intro i st q q'; simp [sessionLoop, sessionLoopCancelAt]
  | cons t ts ih =>
    intro i st q q'
    cases hoc : oc i with
    | captureFailed =>
      simp only [sessionLoopCancelAt, sessionLoop, hoc]
      exact ih (i + 1) st _ _
    | classifyError msg =>
      simp [sessionLoopCancelAt, sessionLoop, hoc]
    | classified r =>
      simp only [sessionLoopCancelAt, sessionLoop, hoc]
      exact ⟨(ih (i + 1) (foldFrame st r) _ _).1,
        congrArg (List.cons t) (ih (i + 1) (foldFrame st r) _ _).2.1,
        congrArg (List.cons _) (ih (i + 1) (foldFrame st r) _ _).2.2.1,
        (ih (i + 1) (foldFrame st r) _ _).2.2.2⟩

/-- `updateQueueItem` on a queue that does not contain the item is a
no-op: once an item has been removed, later publishes cannot touch it. -/
lemma updateQueueItem_noop (q : List QueueItem) (itemId : String)
    (upd : QueueItem → QueueItem) (h : ∀ it ∈ q, it.id ≠ itemId) :
    updateQueueItem q itemId upd = q := by
  unfold updateQueueItem
  induction q with
  | nil => rfl
  | cons a q ih =>
    simp only [List.map_cons]
    rw [if_neg (h a (by simp)), ih (fun it hit => h it (by simp [hit]))]

/-- A frame outcome is in range when, if it carries a classification, its
probability and confidence lie in `[0, 100]` (the documented range of the
classifier's output). -/
def okOutcome : FrameOutcome → Bool
  | .classified r =>
    decide (0 ≤ r.probabilityAI) && decide (r.probabilityAI ≤ 100)
      && decide (0 ≤ r.confidence) && decide (r.confidence ≤ 100)
  | _ => true

lemma probOf_bounds {o : FrameOutcome} (h : okOutcome o = true) :
    0 ≤ probOf o ∧ probOf o ≤ 100 := by
  cases o with
  | classified r =>
    simp only [okOutcome, Bool.and_eq_true, decide_eq_true_eq] at h
    exact ⟨h.1.1.1, h.1.1.2⟩
  | captureFailed => simp [probOf]
  | classifyError msg => simp [probOf]

lemma confOf_bounds {o : FrameOutcome} (h : okOutcome o = true) :
    0 ≤ confOf o ∧ confOf o ≤ 100 := by
  cases o with
  | classified r =>
    simp only [okOutcome, Bool.and_eq_true, decide_eq_true_eq] at h
    exact ⟨h.1.2, h.2⟩
  | captureFailed => simp [confOf]
  | classifyError msg => simp [confOf]

lemma sumProbFrom_eq_sum (oc : ℕ → FrameOutcome) :
    ∀ (n i : ℕ), sumProbFrom oc i n = ∑ j ∈ Finset.range n, probOf (oc (i + j)) := by
  intro n
  induction n with
  | zero => intro i; simp [sumProbFrom]
  | succ n ih =>
    intro i
    rw [Finset.sum_range_succ']
    simp only [sumProbFrom, Nat.add_zero]
    rw [ih (i + 1)]
    have hcg : (∑ j ∈ Finset.range n, probOf (oc (i + 1 + j)))
        = ∑ j ∈ Finset.range n, probOf (oc (i + (j + 1))) :=
      Finset.sum_congr rfl (fun j _ => by rw [show i + 1 + j = i + (j + 1) by omega])
    rw [hcg]
    ring

lemma sumConfFrom_eq_sum (oc : ℕ → FrameOutcome) :
    ∀ (n i : ℕ), sumConfFrom oc i n = ∑ j ∈ Finset.range n, confOf (oc (i + j)) := by
  intro n
  induction n with
  | zero => intro i; simp [sumConfFrom]
  | succ n ih =>
    intro i
    rw [Finset.sum_range_succ']
    simp only [sumConfFrom, Nat.add_zero]
    rw [ih (i + 1)]
    have hcg : (∑ j ∈ Finset.range n, confOf (oc (i + 1 + j)))
        = ∑ j ∈ Finset.range n, confOf (oc (i + (j + 1))) :=
      Finset.sum_congr rfl (fun j _ => by rw [show i + 1 + j = i + (j + 1) by omega])
    rw [hcg]
    ring

lemma sumProbFrom_bounds (oc : ℕ → FrameOutcome) :
    ∀ (n i : ℕ), (∀ j < n, okOutcome (oc (i + j)) = true) →
      0 ≤ sumProbFrom oc i n ∧ sumProbFrom oc i n ≤ 100 * n := by
  intro n
  induction n with
  | zero => intro i _; simp [sumProbFrom]
  | succ n ih =>
    intro i hok
    have h0 := probOf_bounds (hok 0 (by simp))
    simp only [Nat.add_zero] at h0
    have hrec := ih (i + 1) (fun j hj => by
      have := hok (j + 1) (by omega)
      simpa [Nat.add_assoc, Nat.add_comm 1 j] using this)
    simp only [sumProbFrom]
    constructor
    · linarith [h0.1, hrec.1]
    · have : (100 : ℚ) * (n + 1 : ℕ) = 100 * n + 100 := by push_cast; ring
      rw [this]
      linarith [h0.2, hrec.2]

lemma sumConfFrom_bounds (oc : ℕ → FrameOutcome) :
    ∀ (n i : ℕ), (∀ j < n, okOutcome (oc (i + j)) = true) →
      0 ≤ sumConfFrom oc i n ∧ sumConfFrom oc i n ≤ 100 * n := by
  intro n
  induction n with
  | zero => intro i _; simp [sumConfFrom]
  | succ n ih =>
    intro i hok
    have h0 := confOf_bounds (hok 0 (by simp))
    simp only [Nat.add_zero] at h0
    have hrec := ih (i + 1) (fun j hj => by
      have := hok (j + 1) (by omega)
      simpa [Nat.add_assoc, Nat.add_comm 1 j] using this)
    simp only [sumConfFrom]
    constructor
    · linarith [h0.1, hrec.1]
    · have : (100 : ℚ) * (n + 1 : ℕ) = 100 * n + 100 := by push_cast; ring
      rw [this]
      linarith [h0.2, hrec.2]

/-- A rounded average of a sum bounded by `100 * count` lies in `[0, 100]`. -/
lemma mathRound_avg_bounds {sum : ℚ} {count : ℕ} (hc : 0 < count)
    (h0 : 0 ≤ sum) (h1 : sum ≤ 100 * count) :
    0 ≤ mathRound (sum / (count : ℚ)) ∧ mathRound (sum / (count : ℚ)) ≤ 100 := by
  have hcq : (0 : ℚ) < (count : ℚ) := by exact_mod_cast hc
  have hdiv0 : 0 ≤ sum / (count : ℚ) := div_nonneg h0 (le_of_lt hcq)
  have hdiv1 : sum / (count : ℚ) ≤ 100 := by
    rw [div_le_iff₀ hcq]
    linarith
  exact ⟨mathRound_nonneg hdiv0, mathRound_le_hundred hdiv1⟩

lemma lastFoldedFrom_isSome_of_base (oc : ℕ → FrameOutcome) :
    ∀ (n i : ℕ) (b : Option AnalysisResult), b.isSome = true →
      (lastFoldedFrom oc i n b).isSome = true := by
  intro n
  induction n with
  | zero => intro i b hb; simpa [lastFoldedFrom] using hb
  | succ n ih =>
    intro i b hb
    simp only [lastFoldedFrom]
    apply ih
    cases hoc : oc i <;> simp [hoc, hb]

lemma lastFoldedFrom_isSome (oc : ℕ → FrameOutcome) :
    ∀ (n i : ℕ) (b : Option AnalysisResult),
      (∃ j < n, isClassified (oc (i + j)) = true) →
      (lastFoldedFrom oc i n b).isSome = true := by
  intro n
  induction n with
  | zero => intro i b h; omega
  | succ n ih =>
    intro i b ⟨j, hj, hcl⟩
    simp only [lastFoldedFrom]
    cases hoc : oc i with
    | classified r =>
      exact lastFoldedFrom_isSome_of_base oc n (i + 1) _ (by simp [hoc])
    | captureFailed =>
      rcases j with _ | j
      · simp [hoc, isClassified] at hcl
      · exact ih (i + 1) _ ⟨j, by omega, by simpa [Nat.add_assoc, Nat.add_comm 1 j] using hcl⟩
    | classifyError msg =>
      rcases j with _ | j
      · simp [hoc, isClassified] at hcl
      · exact ih (i + 1) _ ⟨j, by omega, by simpa [Nat.add_assoc, Nat.add_comm 1 j] using hcl⟩

/-- Every intermediate result published by the loop has probability and
confidence in `[0, 100]`, provided the classifier's outputs are in range
and the incoming aggregates are bounded by `100 * i` (the divisor used at
position `i` is `i + 1`, which can only exceed the number of folds, so
the bound is preserved even across skipped frames). -/
lemma sessionLoop_interm_bounds (itemId : String) (tot : ℕ) (oc : ℕ → FrameOutcome) :
    ∀ (ts : List ℚ) (i : ℕ) (st : LoopState) (q : List QueueItem),
      (∀ j < ts.length, okOutcome (oc (i + j)) = true) →
      0 ≤ st.aggregatedProb → st.aggregatedProb ≤ 100 * i →
      0 ≤ st.aggregatedConf → st.aggregatedConf ≤ 100 * i →
      ∀ pr ∈ (sessionLoop itemId tot oc ts i st q).intermediates,
        0 ≤ pr.1.probabilityAI ∧ pr.1.probabilityAI ≤ 100 ∧
        0 ≤ pr.1.confidence ∧ pr.1.confidence ≤ 100 := by
  intro ts
  induction ts with
  | nil => intro i st q _ _ _ _ _ pr hpr; simp [sessionLoop] at hpr
  | cons t ts ih =>
    intro i st q hok hp0 hp1 hc0 hc1 pr hpr
    have hok0 : okOutcome (oc i) = true := by simpa using hok 0 (by simp)
    have hok' : ∀ j < ts.length, okOutcome (oc (i + 1 + j)) = true := by
      intro j hj
      have := hok (j + 1) (by simpa using Nat.succ_lt_succ hj)
      simpa [Nat.add_assoc, Nat.add_comm 1 j] using this
    have hi1 : (100 : ℚ) * i ≤ 100 * (i + 1 : ℕ) := by push_cast; linarith
    cases hoc : oc i with
    | captureFailed =>
      rw [sessionLoop_cons_captureFailed itemId tot t ts st q hoc] at hpr
      exact ih (i + 1) st q hok' hp0 (le_trans hp1 hi1) hc0 (le_trans hc1 hi1) pr hpr
    | classifyError msg =>
      rw [sessionLoop_cons_classifyError itemId tot t ts st q hoc] at hpr
      simp at hpr
    | classified r =>
      rw [hoc, okOutcome, Bool.and_eq_true, Bool.and_eq_true, Bool.and_eq_true] at hok0
      simp only [decide_eq_true_eq] at hok0
      obtain ⟨⟨⟨hr0, hr1⟩, hr2⟩, hr3⟩ := hok0
      rw [sessionLoop_cons_classified itemId tot t ts st q hoc] at hpr
      simp only [List.mem_cons] at hpr
      have hsp0 : 0 ≤ (foldFrame st r).aggregatedProb := by
        simp only [foldFrame]; linarith
      have hsp1 : (foldFrame st r).aggregatedProb ≤ 100 * (i + 1 : ℕ) := by
        simp only [foldFrame]; push_cast; linarith
      have hsc0 : 0 ≤ (foldFrame st r).aggregatedConf := by
        simp only [foldFrame]; linarith
      have hsc1 : (foldFrame st r).aggregatedConf ≤ 100 * (i + 1 : ℕ) := by
        simp only [foldFrame]; push_cast; linarith
      rcases hpr with hhead | htail
      · subst hhead
        simp only [progressiveResult]
        have hb1 := @mathRound_avg_bounds (foldFrame st r).aggregatedProb
          (i + 1) (by omega) hsp0 hsp1
        have hb2 := @mathRound_avg_bounds (foldFrame st r).aggregatedConf
          (i + 1) (by omega) hsc0 hsc1
        exact ⟨by exact_mod_cast hb1.1, by exact_mod_cast hb1.2,
               by exact_mod_cast hb2.1, by exact_mod_cast hb2.2⟩
      · exact ih (i + 1) (foldFrame st r) _ hok' hsp0 hsp1 hsc0 hsc1 pr htail

/-! ## Properties of the evidence-pool pipeline -/

lemma mapInsert_names (acc : List KeyFeature) (f : KeyFeature) :
    (mapInsert acc f).map (fun g => g.feature)
      = if f.feature ∈ acc.map (fun g => g.feature)
        then acc.map (fun g => g.feature)
        else acc.map (fun g => g.feature) ++ [f.feature] := by
  unfold mapInsert
  by_cases h : f.feature ∈ acc.map (fun g => g.feature)
  · rw [if_pos h, if_pos h, List.map_map]
    apply List.map_congr_left
    intro g _
    by_cases hgf : g.feature = f.feature
    · simp [hgf]
    · simp [hgf]
  · rw [if_neg h, if_neg h, List.map_append]
    rfl

lemma dedup_names_aux :
    ∀ (fs : List KeyFeature) (acc : List KeyFeature),
      (fs.foldl mapInsert acc).map (fun g => g.feature)
        = acc.map (fun g => g.feature)
          ++ newNames (acc.map (fun g => g.feature)) (fs.map (fun f => f.feature)) := by
  intro fs
  induction fs with
  | nil => intro acc; simp [newNames]
  | cons f fs ih =>
    intro acc
    simp only [List.foldl_cons, List.map_cons]
    rw [ih (mapInsert acc f), mapInsert_names]
    by_cases h : f.feature ∈ acc.map (fun g => g.feature)
    · rw [if_pos h]
      simp only [newNames, if_pos h]
    · rw [if_neg h]
      simp only [newNames, if_neg h]
      rw [List.append_assoc]
      rfl

/-- The names `newNames seen l` are nodup and disjoint from `seen`. -/
lemma newNames_nodup_aux :
    ∀ (l seen : List String),
      (∀ n ∈ newNames seen l, n ∉ seen) ∧ (newNames seen l).Nodup := by
  intro l
  induction l with
  | nil => intro seen; simp [newNames]
  | cons n ns ih =>
    intro seen
    by_cases h : n ∈ seen
    · simpa only [newNames, if_pos h] using ih seen
    · simp only [newNames, if_neg h]
      have ih' := ih (seen ++ [n])
      constructor
      · intro m hm
        rcases List.mem_cons.mp hm with hm | hm
        · subst hm; exact h
        · intro hms
          exact (ih'.1 m hm) (by simp [hms])
      · refine List.nodup_cons.mpr ⟨?_, ih'.2⟩
        intro hmem
        exact (ih'.1 n hmem) (by simp)

lemma findByName_append :
    ∀ (l₁ l₂ : List KeyFeature) (n : String),
      findByName (l₁ ++ l₂) n
        = match findByName l₁ n with
          | some g => some g
          | none => findByName l₂ n := by
  intro l₁
  induction l₁ with
  | nil => intro l₂ n; simp [findByName]
  | cons g l₁ ih =>
    intro l₂ n
    simp only [List.cons_append, findByName, List.append_eq]
    by_cases hg : g.feature = n
    · rw [if_pos hg, if_pos hg]
    · rw [if_neg hg, if_neg hg, ih]

lemma findByName_none_of_not_mem :
    ∀ (l : List KeyFeature) (n : String),
      n ∉ l.map (fun g => g.feature) → findByName l n = none := by
  intro l
  induction l with
  | nil => intro n _; rfl
  | cons g l ih =>
    intro n hn
    simp only [List.map_cons, List.mem_cons] at hn
    push_neg at hn
    simp only [findByName]
    rw [if_neg (fun hg => hn.1 hg.symm)]
    exact ih n hn.2

lemma findByName_replace_eq :
    ∀ (acc : List KeyFeature) (f : KeyFeature),
      f.feature ∈ acc.map (fun g => g.feature) →
      findByName (acc.map (fun g => if g.feature = f.feature then f else g)) f.feature
        = some f := by
  intro acc
  induction acc with
  | nil => intro f h; simp at h
  | cons g acc ih =>
    intro f h
    simp only [List.map_cons, findByName]
    by_cases hg : g.feature = f.feature
    · rw [if_pos hg]
      simp [findByName]
    · rw [if_neg hg]
      rw [if_neg hg]
      apply ih
      simp only [List.map_cons, List.mem_cons] at h
      rcases h with h | h
      · exact absurd h.symm hg
      · exact h

lemma findByName_replace_ne :
    ∀ (acc : List KeyFeature) (f : KeyFeature) (n : String), n ≠ f.feature →
      findByName (acc.map (fun g => if g.feature = f.feature then f else g)) n
        = findByName acc n := by
  intro acc
  induction acc with
  | nil => intro f n _; rfl
  | cons g acc ih =>
    intro f n hn
    simp only [List.map_cons, findByName]
    by_cases hg : g.feature = f.feature
    · rw [if_pos hg]
      rw [if_neg (fun hf : f.feature = n => hn hf.symm),
        if_neg (fun hf : g.feature = n => hn (hf.symm.trans hg))]
      exact ih f n hn
    · rw [if_neg hg]
      by_cases hgn : g.feature = n
      · rw [if_pos hgn, if_pos hgn]
      · rw [if_neg hgn, if_neg hgn]
        exact ih f n hn

lemma findByName_mapInsert (acc : List KeyFeature) (f : KeyFeature) (n : String) :
    findByName (mapInsert acc f) n
      = if n = f.feature then some f else findByName acc n := by
  unfold mapInsert
  by_cases hmem : f.feature ∈ acc.map (fun g => g.feature)
  · rw [if_pos hmem]
    by_cases hn : n = f.feature
    · rw [if_pos hn, hn]
      exact findByName_replace_eq acc f hmem
    · rw [if_neg hn]
      exact findByName_replace_ne acc f n hn
  · rw [if_neg hmem, findByName_append]
    by_cases hn : n = f.feature
    · rw [if_pos hn]
      rw [hn, findByName_none_of_not_mem acc f.feature hmem]
      simp [findByName]
    · rw [if_neg hn]
      cases hfind : findByName acc n with
      | some g => rfl
      | none =>
        show findByName [f] n = none
        simp only [findByName]
        rw [if_neg (fun hf : f.feature = n => hn hf.symm)]

lemma dedup_find_aux :
    ∀ (fs acc : List KeyFeature) (n : String),
      findByName (fs.foldl mapInsert acc) n
        = match lastEntryFor fs n with
          | some e => some e
          | none => findByName acc n := by
  intro fs
  induction fs with
  | nil => intro acc n; rfl
  | cons f fs ih =>
    intro acc n
    simp only [List.foldl_cons, lastEntryFor]
    rw [ih (mapInsert acc f) n]
    cases hlast : lastEntryFor fs n with
    | some e => rfl
    | none =>
      simp only []
      rw [findByName_mapInsert]
      by_cases hf : f.feature = n
      · rw [if_pos (hf.symm), if_pos hf]
      · rw [if_neg (fun hn => hf hn.symm), if_neg hf]

/-- "Ranked at least as high": `a` has an impact score `≥` that of `b`. -/
def impactGE (a b : KeyFeature) : Prop := b.impactScore ≤ a.impactScore

lemma insertDesc_perm (f : KeyFeature) :
    ∀ l : List KeyFeature, List.Perm (insertDesc f l) (f :: l) := by
  intro l
  induction l with
  | nil => simp [insertDesc]
  | cons g gs ih =>
    simp only [insertDesc]
    by_cases h : f.impactScore ≤ g.impactScore
    · rw [if_pos h]
      exact (ih.cons g).trans (List.Perm.swap f g gs)
    · rw [if_neg h]

lemma insertDesc_pairwise (f : KeyFeature) :
    ∀ l : List KeyFeature, List.Pairwise impactGE l →
      List.Pairwise impactGE (insertDesc f l) := by
  intro l
  induction l with
  | nil => intro _; simp [insertDesc, List.Pairwise]
  | cons g gs ih =>
    intro hp
    rcases List.pairwise_cons.mp hp with ⟨hg, hgs⟩
    simp only [insertDesc]
    by_cases h : f.impactScore ≤ g.impactScore
    · rw [if_pos h]
      refine List.pairwise_cons.mpr ⟨?_, ih hgs⟩
      intro x hx
      have hx2 : x ∈ f :: gs := (insertDesc_perm f gs).mem_iff.mp hx
      rcases List.mem_cons.mp hx2 with hx2 | hx2
      · subst hx2; exact h
      · exact hg x hx2
    · rw [if_neg h]
      push_neg at h
      refine List.pairwise_cons.mpr ⟨?_, hp⟩
      intro x hx
      rcases List.mem_cons.mp hx with hx | hx
      · subst hx; exact le_of_lt h
      · exact le_trans (hg x hx) (le_of_lt h)

lemma insertDesc_filter (f : KeyFeature) (s : ℚ) :
    ∀ l : List KeyFeature, List.Pairwise impactGE l →
      (insertDesc f l).filter (fun g => g.impactScore = s)
        = if f.impactScore = s
          then l.filter (fun g => g.impactScore = s) ++ [f]
          else l.filter (fun g => g.impactScore = s) := by
  intro l
  induction l with
  | nil =>
    intro _
    by_cases hf : f.impactScore = s
    · rw [if_pos hf]; simp [insertDesc, List.filter, hf]
    · rw [if_neg hf]; simp [insertDesc, List.filter, hf]
  | cons g gs ih =>
    intro hp
    rcases List.pairwise_cons.mp hp with ⟨hg, hgs⟩
    simp only [insertDesc]
    by_cases h : f.impactScore ≤ g.impactScore
    · rw [if_pos h]
      rw [List.filter_cons, List.filter_cons]
      rw [ih hgs]
      by_cases hf : f.impactScore = s
      · rw [if_pos hf]
        by_cases hgss : g.impactScore = s
        · simp [hgss, hf]
        · simp [hgss, hf]
      · rw [if_neg hf]
        by_cases hgss : g.impactScore = s
        · simp [hgss, hf]
        · simp [hgss, hf]
    · rw [if_neg h]
      push_neg at h
      by_cases hf : f.impactScore = s
      · rw [if_pos hf]
        have hnone : (g :: gs).filter (fun x => x.impactScore = s) = [] := by
          rw [List.filter_eq_nil_iff]
          intro x hx
          simp only [decide_eq_true_eq]
          intro hxs
          have hxle : x.impactScore ≤ g.impactScore := by
            rcases List.mem_cons.mp hx with hx | hx
            · subst hx; exact le_refl _
            · exact hg x hx
          rw [hxs, ← hf] at hxle
          exact absurd hxle (not_le.mpr h)
        rw [List.filter_cons, hnone]
        simp [hf]
      · rw [if_neg hf]
        rw [List.filter_cons]
        simp [hf]

lemma sortFold_perm :
    ∀ (l acc : List KeyFeature),
      List.Perm (l.foldl (fun acc f => insertDesc f acc) acc) (acc ++ l) := by
  intro l
  induction l with
  | nil => intro acc; simp
  | cons f l ih =>
    intro acc
    simp only [List.foldl_cons]
    refine (ih (insertDesc f acc)).trans ?_
    refine (List.Perm.append_right l (insertDesc_perm f acc)).trans ?_
    exact List.perm_middle.symm

lemma sortFold_pairwise :
    ∀ (l acc : List KeyFeature), List.Pairwise impactGE acc →
      List.Pairwise impactGE (l.foldl (fun acc f => insertDesc f acc) acc) := by
  intro l
  induction l with
  | nil => intro acc h; exact h
  | cons f l ih =>
    intro acc h
    exact ih (insertDesc f acc) (insertDesc_pairwise f acc h)

lemma sortFold_filter (s : ℚ) :
    ∀ (l acc : List KeyFeature), List.Pairwise impactGE acc →
      (l.foldl (fun acc f => insertDesc f acc) acc).filter (fun g => g.impactScore = s)
        = acc.filter (fun g => g.impactScore = s)
          ++ l.filter (fun g => g.impactScore = s) := by
  intro l
  induction l with
  | nil => intro acc _; simp
  | cons f l ih =>
    intro acc h
    simp only [List.foldl_cons]
    rw [ih (insertDesc f acc) (insertDesc_pairwise f acc h)]
    rw [insertDesc_filter f s acc h]
    rw [List.filter_cons]
    by_cases hf : f.impactScore = s
    · rw [if_pos hf]
      simp [hf]
    · rw [if_neg hf]
      simp [hf]

lemma sortByImpactDesc_perm (l : List KeyFeature) :
    List.Perm (sortByImpactDesc l) l := by
  unfold sortByImpactDesc
  simpa using sortFold_perm l []

lemma sortByImpactDesc_pairwise (l : List KeyFeature) :
    List.Pairwise impactGE (sortByImpactDesc l) := by
  unfold sortByImpactDesc
  exact sortFold_pairwise l [] (by simp)

lemma sortByImpactDesc_filter (l : List KeyFeature) (s : ℚ) :
    (sortByImpactDesc l).filter (fun g => g.impactScore = s)
      = l.filter (fun g => g.impactScore = s) := by
  unfold sortByImpactDesc
  simpa using sortFold_filter s l [] (by simp)

/-! ## Properties of the frame sampler -/

lemma sampleLoopFuel_mem_lb (duration step : ℚ) :
    ∀ (fuel : ℕ) (t x : ℚ), x ∈ sampleLoopFuel fuel duration step t → t ≤ x := by
  intro fuel
  induction fuel with
  | zero => intro t x hx; simp [sampleLoopFuel] at hx
  | succ n ih =>
    intro t x hx
    simp only [sampleLoopFuel] at hx
    by_cases hc : t < duration ∧ 1 ≤ step
    · rw [if_pos hc] at hx
      rcases List.mem_cons.mp hx with hx | hx
      · subst hx; exact le_refl _
      · have := ih (t + step) x hx
        linarith [hc.2]
    · rw [if_neg hc] at hx
      simp at hx

lemma sampleLoopFuel_mem_lt (duration step : ℚ) :
    ∀ (fuel : ℕ) (t x : ℚ), x ∈ sampleLoopFuel fuel duration step t → x < duration := by
  intro fuel
  induction fuel with
  | zero => intro t x hx; simp [sampleLoopFuel] at hx
  | succ n ih =>
    intro t x hx
    simp only [sampleLoopFuel] at hx
    by_cases hc : t < duration ∧ 1 ≤ step
    · rw [if_pos hc] at hx
      rcases List.mem_cons.mp hx with hx | hx
      · subst hx; exact hc.1
      · exact ih (t + step) x hx
    · rw [if_neg hc] at hx
      simp at hx

lemma sampleLoopFuel_chain (duration step : ℚ) :
    ∀ (fuel : ℕ) (t : ℚ), List.Chain' (fun a b => a < b) (sampleLoopFuel fuel duration step t) := by
  intro fuel
  induction fuel with
  | zero => intro t; simp [sampleLoopFuel]
  | succ n ih =>
    intro t
    simp only [sampleLoopFuel]
    by_cases hc : t < duration ∧ 1 ≤ step
    · rw [if_pos hc]
      refine List.chain'_cons'.mpr ⟨?_, ih (t + step)⟩
      intro y hy
      have hmem : y ∈ sampleLoopFuel n duration step (t + step) := by
        exact List.mem_of_mem_head? hy
      have := sampleLoopFuel_mem_lb duration step n (t + step) y hmem
      linarith [hc.2]
    · rw [if_neg hc]
      simp

lemma sampleLoop_mem_lt (duration step t x : ℚ)
    (hx : x ∈ sampleLoop duration step t) : x < duration :=
  sampleLoopFuel_mem_lt duration step _ t x hx

lemma sampleLoop_chain (duration step t : ℚ) :
    List.Chain' (fun a b => a < b) (sampleLoop duration step t) :=
  sampleLoopFuel_chain duration step _ t

/-- C6 helper: the effective duration and clamped interval used by
`schedule`. -/
lemma schedule_cases (videoDuration sampleInterval : ℚ) :
    schedule videoDuration sampleInterval
      = (if (sampleLoop (if videoDuration = 0 then 1 else videoDuration)
               (max 1 sampleInterval) 0).isEmpty
         then [0]
         else sampleLoop (if videoDuration = 0 then 1 else videoDuration)
                (max 1 sampleInterval) 0) := rfl

/-- The sample schedule is never empty (the source pushes `0` when the
loop produced nothing). -/
lemma schedule_ne_nil (videoDuration sampleInterval : ℚ) :
    schedule videoDuration sampleInterval ≠ [] := by
  show (if (sampleLoop (if videoDuration = 0 then 1 else videoDuration)
          (max 1 sampleInterval) 0).isEmpty
        then [0]
        else sampleLoop (if videoDuration = 0 then 1 else videoDuration)
          (max 1 sampleInterval) 0) ≠ []
  by_cases h : (sampleLoop (if videoDuration = 0 then 1 else videoDuration)
      (max 1 sampleInterval) 0).isEmpty
  · rw [if_pos h]; simp
  · rw [if_neg h]
    intro hnil
    rw [hnil] at h
    exact h rfl

lemma schedule_length_pos (videoDuration sampleInterval : ℚ) :
    0 < (schedule videoDuration sampleInterval).length :=
  List.length_pos.mpr (schedule_ne_nil videoDuration sampleInterval)

/-- The aggregate sums after any pass (aborted or not) stay bounded by
`100 ·` the number of schedule positions passed, when the classifier's
outputs are in range. -/
lemma sessionLoop_state_bounds (itemId : String) (tot : ℕ) (oc : ℕ → FrameOutcome) :
    ∀ (ts : List ℚ) (i : ℕ) (st : LoopState) (q : List QueueItem),
      (∀ j < ts.length, okOutcome (oc (i + j)) = true) →
      0 ≤ st.aggregatedProb → st.aggregatedProb ≤ 100 * i →
      0 ≤ st.aggregatedConf → st.aggregatedConf ≤ 100 * i →
      0 ≤ (sessionLoop itemId tot oc ts i st q).st.aggregatedProb
      ∧ (sessionLoop itemId tot oc ts i st q).st.aggregatedProb ≤ 100 * (i + ts.length)
      ∧ 0 ≤ (sessionLoop itemId tot oc ts i st q).st.aggregatedConf
      ∧ (sessionLoop itemId tot oc ts i st q).st.aggregatedConf ≤ 100 * (i + ts.length) := by
  intro ts
  induction ts with
  | nil =>
    intro i st q _ hp0 hp1 hc0 hc1
    rw [sessionLoop_nil]
    exact ⟨hp0, by simpa using hp1, hc0, by simpa using hc1⟩
  | cons t ts ih =>
    intro i st q hok hp0 hp1 hc0 hc1
    have hok0 : okOutcome (oc i) = true := by simpa using hok 0 (by simp)
    have hok' : ∀ j < ts.length, okOutcome (oc (i + 1 + j)) = true := by
      intro j hj
      have := hok (j + 1) (by simpa using Nat.succ_lt_succ hj)
      simpa [Nat.add_assoc, Nat.add_comm 1 j] using this
    have hi1 : (100 : ℚ) * i ≤ 100 * (i + 1 : ℕ) := by push_cast; linarith
    cases hoc : oc i with
    | captureFailed =>
      rw [sessionLoop_cons_captureFailed itemId tot t ts st q hoc]
      have hrec := ih (i + 1) st q hok' hp0 (le_trans hp1 hi1) hc0 (le_trans hc1 hi1)
      refine ⟨hrec.1, ?_, hrec.2.2.1, ?_⟩
      · have hh := hrec.2.1
        simp only [List.length_cons] at *
        push_cast at hh ⊢
        linarith
      · have hh := hrec.2.2.2
        simp only [List.length_cons] at *
        push_cast at hh ⊢
        linarith
    | classifyError msg =>
      rw [sessionLoop_cons_classifyError itemId tot t ts st q hoc]
      have hmono : (100 : ℚ) * i ≤ 100 * ((i : ℚ) + ((t :: ts).length : ℚ)) := by
        have : (0 : ℚ) ≤ ((t :: ts).length : ℚ) := Nat.cast_nonneg _
        nlinarith
      exact ⟨hp0, le_trans hp1 hmono, hc0, le_trans hc1 hmono⟩
    | classified r =>
      rw [hoc, okOutcome, Bool.and_eq_true, Bool.and_eq_true, Bool.and_eq_true] at hok0
      simp only [decide_eq_true_eq] at hok0
      obtain ⟨⟨⟨hr0, hr1⟩, hr2⟩, hr3⟩ := hok0
      rw [sessionLoop_cons_classified itemId tot t ts st q hoc]
      simp only []
      have hsp0 : 0 ≤ (foldFrame st r).aggregatedProb := by
        simp only [foldFrame]; linarith
      have hsp1 : (foldFrame st r).aggregatedProb ≤ 100 * (i + 1 : ℕ) := by
        simp only [foldFrame]; push_cast; linarith
      have hsc0 : 0 ≤ (foldFrame st r).aggregatedConf := by
        simp only [foldFrame]; linarith
      have hsc1 : (foldFrame st r).aggregatedConf ≤ 100 * (i + 1 : ℕ) := by
        simp only [foldFrame]; push_cast; linarith
      have hrec := ih (i + 1) (foldFrame st r)
        (updateQueueItem q itemId
          (fun it => { it with segmentsProcessed := some (i + 1),
                               result := some (progressiveResult (i + 1) tot
                                 (foldFrame st r) r) }))
        hok' hsp0 hsp1 hsc0 hsc1
      refine ⟨hrec.1, ?_, hrec.2.2.1, ?_⟩
      · have hh := hrec.2.1
        simp only [List.length_cons] at *
        push_cast at hh ⊢
        linarith
      · have hh := hrec.2.2.2
        simp only [List.length_cons] at *
        push_cast at hh ⊢
        linarith

/-! ## Claim theorems -/

/-- C6: for every duration and every sampling interval, the sample
schedule is non-empty, strictly increasing, starts at 0, and every
element is strictly below the duration whenever the duration is positive;
it is exactly `[0]` when the duration is ≤ 0 or when the duration does
not exceed the (clamped) interval; and the step used is the interval
clamped to a minimum of 1, hence never ≤ 0. -/
theorem C6_schedule_spec (videoDuration sampleInterval : ℚ) :
    schedule videoDuration sampleInterval ≠ []
    ∧ (schedule videoDuration sampleInterval).head? = some 0
    ∧ List.Chain' (fun a b => a < b) (schedule videoDuration sampleInterval)
    ∧ List.Pairwise (fun a b => a < b) (schedule videoDuration sampleInterval)
    ∧ (0 < videoDuration →
        ∀ x ∈ schedule videoDuration sampleInterval, x < videoDuration)
    ∧ (videoDuration ≤ 0 → schedule videoDuration sampleInterval = [0])
    ∧ (videoDuration ≤ max 1 sampleInterval → schedule videoDuration sampleInterval = [0])
    ∧ 1 ≤ max 1 sampleInterval := by
  have hs : (1 : ℚ) ≤ max 1 sampleInterval := le_max_left 1 sampleInterval
  have hshape : sampleLoop (if videoDuration = 0 then 1 else videoDuration)
        (max 1 sampleInterval) 0 = []
      ∨ ∃ rest, sampleLoop (if videoDuration = 0 then 1 else videoDuration)
          (max 1 sampleInterval) 0 = 0 :: rest := by
    rw [sampleLoop_eq]
    by_cases hg : (0 : ℚ) < (if videoDuration = 0 then 1 else videoDuration)
        ∧ (1 : ℚ) ≤ max 1 sampleInterval
    · right
      rw [if_pos hg]
      exact ⟨_, rfl⟩
    · left
      rw [if_neg hg]
  have hsched : schedule videoDuration sampleInterval
      = (if (sampleLoop (if videoDuration = 0 then 1 else videoDuration)
               (max 1 sampleInterval) 0).isEmpty
         then [0]
         else sampleLoop (if videoDuration = 0 then 1 else videoDuration)
                (max 1 sampleInterval) 0) := rfl
  have hform : schedule videoDuration sampleInterval = [0]
      ∨ ∃ rest, schedule videoDuration sampleInterval = 0 :: rest ∧
          schedule videoDuration sampleInterval
            = sampleLoop (if videoDuration = 0 then 1 else videoDuration)
                (max 1 sampleInterval) 0 := by
    rcases hshape with hnil | ⟨rest, hcons⟩
    · left; rw [hsched, hnil]; rfl
    · right
      refine ⟨rest, ?_, ?_⟩ <;> rw [hsched, hcons] <;> rfl
  have hchain : List.Chain' (fun a b => a < b) (schedule videoDuration sampleInterval) := by
    rcases hform with h | ⟨rest, _, h2⟩
    · rw [h]; simp
    · rw [h2]; exact sampleLoop_chain _ _ _
  refine ⟨?_, ?_, hchain, ?_, ?_, ?_, ?_, hs⟩
  · rcases hform with h | ⟨rest, h1, _⟩
    · simp [h]
    · simp [h1]
  · rcases hform with h | ⟨rest, h1, _⟩
    · simp [h]
    · simp [h1]
  · exact List.chain'_iff_pairwise.mp hchain
  · intro hpos x hx
    have hne : videoDuration ≠ 0 := ne_of_gt hpos
    rcases hform with h | ⟨rest, _, h2⟩
    · rw [h] at hx
      simp at hx
      rw [hx]; exact hpos
    · rw [h2] at hx
      have := sampleLoop_mem_lt _ _ _ _ hx
      rwa [if_neg hne] at this
  · intro hle
    by_cases h0 : videoDuration = 0
    · rw [hsched]
      rw [if_pos h0]
      rw [sampleLoop_pos (by norm_num) hs, sampleLoop_neg (by
        intro hcon
        have : (0 : ℚ) + max 1 sampleInterval < 1 := hcon.1
        linarith)]
      rfl
    · have hneg : videoDuration < 0 := lt_of_le_of_ne hle h0
      rw [hsched, if_neg h0]
      rw [sampleLoop_neg (fun hcon => absurd hcon.1 (by linarith))]
      rfl
  · intro hle
    by_cases h0 : videoDuration = 0
    · rw [hsched, if_pos h0]
      rw [sampleLoop_pos (by norm_num) hs, sampleLoop_neg (by
        intro hcon
        have : (0 : ℚ) + max 1 sampleInterval < 1 := hcon.1
        linarith)]
      rfl
    · by_cases hpos : (0 : ℚ) < videoDuration
      · rw [hsched, if_neg h0]
        rw [sampleLoop_pos hpos hs]
        rw [sampleLoop_neg (by
          intro hcon
          have h1 : (0 : ℚ) + max 1 sampleInterval < videoDuration := hcon.1
          linarith)]
        rfl
      · have hneg : videoDuration < 0 := by
          rcases lt_trichotomy videoDuration 0 with h | h | h
          · exact h
          · exact absurd h h0
          · exact absurd h hpos
        rw [hsched, if_neg h0]
        rw [sampleLoop_neg (fun hcon => absurd hcon.1 (by linarith))]
        rfl

/-- C5: the in-progress label is two-way — "Likely AI" exactly when the
rounded average probability exceeds 50, otherwise "Likely Human", never
"Mixed/Uncertain" — while the finalized label is three-way: "Likely AI"
iff avg > 50, "Mixed/Uncertain" iff 30 < avg ≤ 50, "Likely Human" iff
avg ≤ 30; at the boundaries, a final average of 30 gives "Likely Human",
31 and 50 give "Mixed/Uncertain", and 51 gives "Likely AI". -/
theorem C5_label_rules (st : LoopState) (count tot : ℕ) (fr : AnalysisResult) :
    ((progressiveResult count tot st fr).label = "Likely AI"
        ↔ 50 < (progressiveResult count tot st fr).probabilityAI)
    ∧ ((progressiveResult count tot st fr).label = "Likely Human"
        ↔ (progressiveResult count tot st fr).probabilityAI ≤ 50)
    ∧ (progressiveResult count tot st fr).label ≠ "Mixed/Uncertain"
    ∧ ((finalAnalysisResult tot st).label = "Likely AI"
        ↔ 50 < (finalAnalysisResult tot st).probabilityAI)
    ∧ ((finalAnalysisResult tot st).label = "Mixed/Uncertain"
        ↔ 30 < (finalAnalysisResult tot st).probabilityAI
          ∧ (finalAnalysisResult tot st).probabilityAI ≤ 50)
    ∧ ((finalAnalysisResult tot st).label = "Likely Human"
        ↔ (finalAnalysisResult tot st).probabilityAI ≤ 30)
    ∧ (finalAnalysisResult 1 ⟨30, 0, [], none⟩).label = "Likely Human"
    ∧ (finalAnalysisResult 1 ⟨31, 0, [], none⟩).label = "Mixed/Uncertain"
    ∧ (finalAnalysisResult 1 ⟨50, 0, [], none⟩).label = "Mixed/Uncertain"
    ∧ (finalAnalysisResult 1 ⟨51, 0, [], none⟩).label = "Likely AI" := by
  refine ⟨?_, ?_, ?_, ?_, ?_, ?_, ?_, ?_, ?_, ?_⟩
  · simp only [progressiveResult]
    by_cases h : 50 < mathRound (st.aggregatedProb / (count : ℚ)) <;> simp [h]
  · simp only [progressiveResult]
    by_cases h : 50 < mathRound (st.aggregatedProb / (count : ℚ))
    · simp [h, not_le.mpr h]
    · simp [h, not_lt.mp h]
  · simp only [progressiveResult]
    by_cases h : 50 < mathRound (st.aggregatedProb / (count : ℚ)) <;> simp [h]
  · simp only [finalAnalysisResult]
    by_cases h : 50 < mathRound (st.aggregatedProb / (tot : ℚ))
    · simp [h]
    · by_cases h2 : 30 < mathRound (st.aggregatedProb / (tot : ℚ)) <;> simp [h, h2]
  · simp only [finalAnalysisResult]
    by_cases h : 50 < mathRound (st.aggregatedProb / (tot : ℚ))
    · simp only [if_pos h]
      constructor
      · intro hc
        exact absurd hc (by decide)
      · intro hc
        linarith [hc.2]
    · by_cases h2 : 30 < mathRound (st.aggregatedProb / (tot : ℚ))
      · simp [h, h2, not_lt.mp h]
      · simp only [if_neg h, if_neg h2]
        constructor
        · intro hc
          exact absurd hc (by decide)
        · intro hc
          exact absurd hc.1 h2
  · simp only [finalAnalysisResult]
    by_cases h : 50 < mathRound (st.aggregatedProb / (tot : ℚ))
    · simp only [if_pos h]
      constructor
      · intro hc
        exact absurd hc (by decide)
      · intro hc
        linarith
    · by_cases h2 : 30 < mathRound (st.aggregatedProb / (tot : ℚ))
      · simp only [if_neg h, if_pos h2]
        constructor
        · intro hc
          exact absurd hc (by decide)
        · intro hc
          linarith
      · simp [h, h2, not_lt.mp h2]
  · norm_num [finalAnalysisResult, mathRound, round_eq, Int.floor_eq_iff]
  · norm_num [finalAnalysisResult, mathRound, round_eq, Int.floor_eq_iff]
  · norm_num [finalAnalysisResult, mathRound, round_eq, Int.floor_eq_iff]
  · norm_num [finalAnalysisResult, mathRound, round_eq, Int.floor_eq_iff]

/-- All key features contributed by a list of folded frame results, in
fold order (the running `allKeyFeatures` of the source). -/
def allFeaturesOf (frames : List AnalysisResult) : List KeyFeature :=
  (frames.map (fun r => r.keyFeatures)).flatten

/-- C4: for every sequence of folded frames, the composite `keyFeatures`
is the top 6 of the evidence pool, where the pool deduplicates by feature
name with last-writer-wins, keeps names in first-occurrence order, and
the ranking sorts by impact score descending, stably (ties keep pool
order); folding "texture blur" with scores 40 then 70 leaves exactly one
entry, with score 70. -/
theorem C4_evidence_pool (frames : List AnalysisResult) :
    uniqueFeatures (allFeaturesOf frames)
        = (sortByImpactDesc (dedupByFeature (allFeaturesOf frames))).take 6
    ∧ (dedupByFeature (allFeaturesOf frames)).map (fun g => g.feature)
        = newNames [] ((allFeaturesOf frames).map (fun f => f.feature))
    ∧ ((dedupByFeature (allFeaturesOf frames)).map (fun g => g.feature)).Nodup
    ∧ (∀ n : String,
        findByName (dedupByFeature (allFeaturesOf frames)) n
          = lastEntryFor (allFeaturesOf frames) n)
    ∧ List.Perm (sortByImpactDesc (dedupByFeature (allFeaturesOf frames)))
        (dedupByFeature (allFeaturesOf frames))
    ∧ List.Pairwise impactGE (sortByImpactDesc (dedupByFeature (allFeaturesOf frames)))
    ∧ (∀ s : ℚ,
        (sortByImpactDesc (dedupByFeature (allFeaturesOf frames))).filter
            (fun g => g.impactScore = s)
          = (dedupByFeature (allFeaturesOf frames)).filter (fun g => g.impactScore = s))
    ∧ (∀ (st : LoopState) (count tot : ℕ) (fr : AnalysisResult),
        (progressiveResult count tot st fr).keyFeatures
          = uniqueFeatures st.allKeyFeatures)
    ∧ (∀ (st : LoopState) (tot : ℕ),
        (finalAnalysisResult tot st).keyFeatures = uniqueFeatures st.allKeyFeatures)
    ∧ dedupByFeature [⟨"texture blur", 40⟩, ⟨"texture blur", 70⟩]
        = [⟨"texture blur", 70⟩]
    ∧ uniqueFeatures [⟨"texture blur", 40⟩, ⟨"texture blur", 70⟩]
        = [⟨"texture blur", 70⟩] := by
  refine ⟨rfl, ?_, ?_, ?_, sortByImpactDesc_perm _, sortByImpactDesc_pairwise _,
    fun s => sortByImpactDesc_filter _ s, fun _ _ _ _ => rfl, fun _ _ => rfl, ?_, ?_⟩
  · have := dedup_names_aux (allFeaturesOf frames) []
    simpa [dedupByFeature] using this
  · have hnames := dedup_names_aux (allFeaturesOf frames) []
    simp only [List.map_nil, List.nil_append] at hnames
    rw [show (dedupByFeature (allFeaturesOf frames)) = (allFeaturesOf frames).foldl mapInsert []
      from rfl, hnames]
    exact (newNames_nodup_aux _ []).2
  · intro n
    have := dedup_find_aux (allFeaturesOf frames) [] n
    rw [show (dedupByFeature (allFeaturesOf frames)) = (allFeaturesOf frames).foldl mapInsert []
      from rfl, this]
    cases lastEntryFor (allFeaturesOf frames) n <;> rfl
  · simp [dedupByFeature, mapInsert]
  · simp [uniqueFeatures, dedupByFeature, mapInsert, sortByImpactDesc, insertDesc]

/-- C10: when the queue item has no preview URL, the progressive analysis
returns immediately: the queue is untouched (no status transition, no
result, no error), no classification call is dispatched, and nothing is
published. -/
theorem C10_no_preview_noop (item : QueueItem) (videoDuration sampleInterval : ℚ)
    (oc : ℕ → FrameOutcome) (queue : List QueueItem)
    (h : item.previewUrl = none) :
    handleProgressiveVideoAnalysis item videoDuration sampleInterval oc queue
      = ⟨queue, [], [], none⟩ := by
  unfold handleProgressiveVideoAnalysis
  rw [h]
  simp

/-- C10 witness: a concrete item with no preview URL. -/
theorem C10_no_preview_noop_witness :
    (⟨"a", "ready", none, none, none, none, none⟩ : QueueItem).previewUrl = none
    ∧ handleProgressiveVideoAnalysis ⟨"a", "ready", none, none, none, none, none⟩ 12 5
        (fun _ => FrameOutcome.captureFailed)
        [⟨"a", "ready", none, none, none, none, none⟩]
      = ⟨[⟨"a", "ready", none, none, none, none, none⟩], [], [], none⟩ :=
  ⟨rfl, C10_no_preview_noop ⟨"a", "ready", none, none, none, none, none⟩ 12 5
    (fun _ => FrameOutcome.captureFailed)
    [⟨"a", "ready", none, none, none, none, none⟩] rfl⟩

/-- Unfolding of the handler past the preview-URL guard. -/
lemma handler_eq (item : QueueItem) (videoDuration sampleInterval : ℚ)
    (oc : ℕ → FrameOutcome) (queue : List QueueItem) (u : String)
    (hprev : item.previewUrl = some u) (hu : u ≠ "") :
    handleProgressiveVideoAnalysis item videoDuration sampleInterval oc queue
      = (let timestamps := schedule videoDuration sampleInterval
         let totalSegments := timestamps.length
         let q1 := updateQueueItem queue item.id
           (fun it => { it with totalSegments := some totalSegments,
                                segmentsProcessed := some 0, status := "analyzing" })
         let out := sessionLoop item.id totalSegments oc timestamps 0 initState q1
         match out.thrown with
         | some msg =>
           let errMsg := if msg = "" then "Progressive analysis failed" else msg
           ⟨updateQueueItem out.queue item.id
               (fun it => { it with status := "error", error := some errMsg }),
             out.dispatched, out.intermediates, none⟩
         | none =>
           match out.st.lastResult with
           | none => ⟨out.queue, out.dispatched, out.intermediates, none⟩
           | some _ =>
             let fin := finalAnalysisResult totalSegments out.st
             ⟨updateQueueItem out.queue item.id
                 (fun it => { it with status := "done", result := some fin,
                                      segmentsProcessed := some totalSegments }),
               out.dispatched, out.intermediates, some fin⟩) := by
  unfold handleProgressiveVideoAnalysis
  rw [hprev]
  rw [if_neg (by simpa using hu)]

/-- A run in which every scheduled capture fails performs only the
initial transition to "analyzing" and nothing else. -/
lemma handler_allFail (item : QueueItem) (u : String)
    (videoDuration sampleInterval : ℚ) (oc : ℕ → FrameOutcome)
    (queue : List QueueItem)
    (hprev : item.previewUrl = some u) (hu : u ≠ "")
    (hall : ∀ j < (schedule videoDuration sampleInterval).length,
      oc j = FrameOutcome.captureFailed) :
    handleProgressiveVideoAnalysis item videoDuration sampleInterval oc queue
      = ⟨updateQueueItem queue item.id
           (fun it =>
             { it with totalSegments := some (schedule videoDuration sampleInterval).length,
                       segmentsProcessed := some 0, status := "analyzing" }),
         [], [], none⟩ := by
  rw [handler_eq item videoDuration sampleInterval oc queue u hprev hu]
  simp only []
  rw [sessionLoop_allFail item.id (schedule videoDuration sampleInterval).length oc
    (schedule videoDuration sampleInterval) 0 initState _
    (fun j hj => by simpa using hall j hj)]
  rfl

/-- C3 (amended): a run in which every scheduled capture fails performs
only the initial transition to "analyzing" and nothing else — it
dispatches no classification call, publishes no intermediate and no final
result, never divides by anything (finalization is skipped by the
`lastResult` guard), and in particular does *not* transition the item to
"error": the item stays in "analyzing". -/
theorem C3_zero_folds_amended (item : QueueItem) (u : String)
    (videoDuration sampleInterval : ℚ) (oc : ℕ → FrameOutcome)
    (queue : List QueueItem)
    (hprev : item.previewUrl = some u) (hu : u ≠ "")
    (hall : ∀ j < (schedule videoDuration sampleInterval).length,
      oc j = FrameOutcome.captureFailed) :
    handleProgressiveVideoAnalysis item videoDuration sampleInterval oc queue
      = ⟨updateQueueItem queue item.id
           (fun it =>
             { it with totalSegments := some (schedule videoDuration sampleInterval).length,
                       segmentsProcessed := some 0, status := "analyzing" }),
         [], [], none⟩ :=
  handler_allFail item u videoDuration sampleInterval oc queue hprev hu hall

/-- C3 counterexample: with a one-segment schedule whose only capture
fails, the run ends with the item still in "analyzing" with no error
message and no published result — not, as claimed, in "error" with a
descriptive message. -/
theorem C3_counterexample :
    (handleProgressiveVideoAnalysis
        ⟨"c3", "ready", some "blob:v", none, none, none, none⟩ 1 5
        (fun _ => FrameOutcome.captureFailed)
        [⟨"c3", "ready", some "blob:v", none, none, none, none⟩]).finalPublished = none
    ∧ (handleProgressiveVideoAnalysis
        ⟨"c3", "ready", some "blob:v", none, none, none, none⟩ 1 5
        (fun _ => FrameOutcome.captureFailed)
        [⟨"c3", "ready", some "blob:v", none, none, none, none⟩]).queue
      = [⟨"c3", "analyzing", some "blob:v", none, none, some 0, some 1⟩]
    ∧ (handleProgressiveVideoAnalysis
        ⟨"c3", "ready", some "blob:v", none, none, none, none⟩ 1 5
        (fun _ => FrameOutcome.captureFailed)
        [⟨"c3", "ready", some "blob:v", none, none, none, none⟩]).dispatched = []
    ∧ ("analyzing" : String) ≠ "error" := by
  have hsched : schedule 1 5 = [0] := by
    norm_num [schedule, sampleLoop_pos, sampleLoop_neg]
  have hrun := handler_allFail
    ⟨"c3", "ready", some "blob:v", none, none, none, none⟩ "blob:v" 1 5
    (fun _ => FrameOutcome.captureFailed)
    [⟨"c3", "ready", some "blob:v", none, none, none, none⟩]
    rfl (by decide) (fun j _ => rfl)
  rw [hsched] at hrun
  rw [hrun]
  refine ⟨rfl, ?_, rfl, by decide⟩
  simp [updateQueueItem]

/-- C3 witness: the amended statement applied at a concrete input. -/
theorem C3_zero_folds_amended_witness :
    ((⟨"c3w", "ready", some "blob:w", none, none, none, none⟩ : QueueItem).previewUrl
        = some "blob:w")
    ∧ ("blob:w" : String) ≠ ""
    ∧ (∀ j < (schedule 1 5).length,
        (fun _ => FrameOutcome.captureFailed) j = FrameOutcome.captureFailed)
    ∧ handleProgressiveVideoAnalysis ⟨"c3w", "ready", some "blob:w", none, none, none, none⟩
        1 5 (fun _ => FrameOutcome.captureFailed) []
      = ⟨updateQueueItem [] "c3w"
           (fun it => { it with totalSegments := some (schedule 1 5).length,
                                segmentsProcessed := some 0, status := "analyzing" }),
         [], [], none⟩ :=
  ⟨rfl, by decide, fun _ _ => rfl,
    C3_zero_folds_amended ⟨"c3w", "ready", some "blob:w", none, none, none, none⟩
      "blob:w" 1 5 (fun _ => FrameOutcome.captureFailed) [] rfl (by decide)
      (fun _ _ => rfl)⟩

/-- The two frame results of the 12-second / interval-5 scenario of the
spec's end-to-end test (frames at t = 0 and t = 10). -/
def fr80 : AnalysisResult := ⟨80, "Likely AI", 90, "", []⟩

def fr60 : AnalysisResult := ⟨60, "Likely AI", 70, "", []⟩

/-- Outcome oracle of the scenario: the frame at schedule position 1
(t = 5) fails classification, the others succeed. -/
def oc12 : ℕ → FrameOutcome :=
  fun j => if j = 0 then FrameOutcome.classified fr80
           else if j = 1 then FrameOutcome.classifyError "Network error"
           else FrameOutcome.classified fr60

def c2item : QueueItem := ⟨"c2", "ready", some "blob:v", none, none, none, none⟩

/-- The full run of the 12-second / interval-5 scenario in which the
frame at t = 5 throws a classification error. -/
lemma c2run_eq : handleProgressiveVideoAnalysis c2item 12 5 oc12 [c2item]
    = (let q1 := updateQueueItem [c2item] "c2"
         (fun it => { it with totalSegments := some 3,
                              segmentsProcessed := some 0, status := "analyzing" })
       let st1 := foldFrame initState fr80
       let prog1 := progressiveResult 1 3 st1 fr80
       let q2 := updateQueueItem q1 "c2"
         (fun it => { it with segmentsProcessed := some 1, result := some prog1 })
       ⟨updateQueueItem q2 "c2"
           (fun it => { it with status := "error", error := some "Network error" }),
         [0, 5], [(prog1, 1)], none⟩) := by
  have hsched : schedule 12 5 = [0, 5, 10] := by
    norm_num [schedule, sampleLoop_pos, sampleLoop_neg]
  rw [handler_eq c2item 12 5 oc12 [c2item] "blob:v" rfl (by decide)]
  simp only [hsched, c2item, List.length_cons, List.length_nil, Nat.zero_add,
    Nat.reduceAdd]
  rw [sessionLoop_cons_classified "c2" 3 0 [5, 10] initState _
    (show oc12 0 = FrameOutcome.classified fr80 from rfl)]
  simp only []
  rw [sessionLoop_cons_classifyError "c2" 3 5 [10] _ _
    (show oc12 1 = FrameOutcome.classifyError "Network error" from rfl)]
  rfl

/-- C2 (amended): a frame whose *capture* fails is skipped and the session
continues, but a frame whose *classification* throws aborts the whole
session: the loop stops at the first classification error (the failing
frame is dispatched but nothing after it), and the handler then marks the
item "error".  In the 12-second / interval-5 scenario with the t = 5
frame failing classification, the item ends in "error" with the thrown
message, `segmentsProcessed = 1` and `totalSegments = 3`, and no final
result is ever published. -/
theorem C2_classify_error_aborts (itemId : String) (tot : ℕ) (oc : ℕ → FrameOutcome)
    (ts₁ : List ℚ) (t : ℚ) (ts₂ : List ℚ) (i : ℕ) (st : LoopState)
    (q : List QueueItem) (msg : String)
    (hno : ∀ j < ts₁.length, isClassifyError (oc (i + j)) = false)
    (hmsg : oc (i + ts₁.length) = FrameOutcome.classifyError msg) :
    sessionLoop itemId tot oc (ts₁ ++ t :: ts₂) i st q
      = ⟨(sessionLoop itemId tot oc ts₁ i st q).st,
         (sessionLoop itemId tot oc ts₁ i st q).queue,
         (sessionLoop itemId tot oc ts₁ i st q).dispatched ++ [t],
         (sessionLoop itemId tot oc ts₁ i st q).intermediates,
         some msg⟩
    ∧ (∀ (oc' : ℕ → FrameOutcome) (t' : ℚ) (ts' : List ℚ) (i' : ℕ) (st' : LoopState)
         (q' : List QueueItem), oc' i' = FrameOutcome.captureFailed →
         sessionLoop itemId tot oc' (t' :: ts') i' st' q'
           = sessionLoop itemId tot oc' ts' (i' + 1) st' q')
    ∧ (handleProgressiveVideoAnalysis c2item 12 5 oc12 [c2item]).finalPublished = none
    ∧ (handleProgressiveVideoAnalysis c2item 12 5 oc12 [c2item]).queue.map
          (fun it => (it.status, it.error, it.segmentsProcessed, it.totalSegments))
        = [("error", some "Network error", some 1, some 3)]
    ∧ (handleProgressiveVideoAnalysis c2item 12 5 oc12 [c2item]).dispatched = [0, 5]
    ∧ (handleProgressiveVideoAnalysis c2item 12 5 oc12 [c2item]).intermediates.map
          (fun pr => (pr.1.probabilityAI, pr.2))
        = [(80, 1)] := by
  have hrun := c2run_eq
  refine ⟨sessionLoop_error_stop itemId tot oc ts₁ t ts₂ i st q msg hno hmsg,
    fun oc' t' ts' i' st' q' h =>
      sessionLoop_cons_captureFailed itemId tot t' ts' st' q' h,
    ?_, ?_, ?_, ?_⟩
  · rw [hrun]
  · rw [hrun]
    simp [updateQueueItem, c2item]
  · rw [hrun]
  · rw [hrun]
    simp only []
    norm_num [progressiveResult, foldFrame, initState, fr80, mathRound, round_eq,
      Int.floor_eq_iff]

/-- C1 (amended): the divisor of every published average is *not* the
number of folded frames: the final result divides the folded sums by
`totalSegments` (the schedule length), and an intermediate published at
schedule position `i` divides by `i + 1`; the two agree with the claim's
`round(Σpᵢ / N)` only when no frame is skipped, in which case the
composite published after the N-th (= last) fold carries exactly that
average with `segmentsProcessed = N`. -/
theorem C1_divisor_totalSegments (item : QueueItem) (u : String)
    (videoDuration sampleInterval : ℚ) (oc : ℕ → FrameOutcome) (queue : List QueueItem)
    (hprev : item.previewUrl = some u) (hu : u ≠ "")
    (hno : ∀ j < (schedule videoDuration sampleInterval).length,
      isClassifyError (oc j) = false)
    (hfold : ((List.range (schedule videoDuration sampleInterval).length).any
        (fun j => isClassified (oc j))) = true) :
    (handleProgressiveVideoAnalysis item videoDuration sampleInterval
        oc queue).finalPublished.map (fun r => r.probabilityAI)
      = some (mathRound
          ((∑ j ∈ Finset.range (schedule videoDuration sampleInterval).length,
              probOf (oc j))
            / ((schedule videoDuration sampleInterval).length : ℚ)))
    ∧ (handleProgressiveVideoAnalysis item videoDuration sampleInterval
        oc queue).finalPublished.map (fun r => r.confidence)
      = some (mathRound
          ((∑ j ∈ Finset.range (schedule videoDuration sampleInterval).length,
              confOf (oc j))
            / ((schedule videoDuration sampleInterval).length : ℚ)))
    ∧ (∀ frames : ℕ → AnalysisResult,
        (∀ j < (schedule videoDuration sampleInterval).length,
          oc j = FrameOutcome.classified (frames j)) →
        (handleProgressiveVideoAnalysis item videoDuration sampleInterval
            oc queue).intermediates.getLast?.map (fun pr => (pr.1.probabilityAI, pr.2))
          = some (mathRound
              ((∑ j ∈ Finset.range (schedule videoDuration sampleInterval).length,
                  (frames j).probabilityAI)
                / ((schedule videoDuration sampleInterval).length : ℚ)),
              (schedule videoDuration sampleInterval).length)) := by
  rw [handler_eq item videoDuration sampleInterval oc queue u hprev hu]
  simp only []
  have hno0 : ∀ j < (schedule videoDuration sampleInterval).length,
      isClassifyError (oc (0 + j)) = false := by
    intro j hj
    simpa using hno j hj
  have hmaster := sessionLoop_noThrow item.id
    (schedule videoDuration sampleInterval).length oc
    (schedule videoDuration sampleInterval) 0 initState
    (updateQueueItem queue item.id
      (fun it => { it with
        totalSegments := some (schedule videoDuration sampleInterval).length,
        segmentsProcessed := some 0, status := "analyzing" }))
    hno0
  rw [hmaster.1]
  simp only []
  have hsome : (lastFoldedFrom oc 0
      (schedule videoDuration sampleInterval).length none).isSome = true := by
    apply lastFoldedFrom_isSome
    rcases List.any_eq_true.mp hfold with ⟨j, hjmem, hj⟩
    exact ⟨j, List.mem_range.mp hjmem, by simpa using hj⟩
  obtain ⟨r, hr⟩ := Option.isSome_iff_exists.mp hsome
  rw [hmaster.2.2.2.2.1, show initState.lastResult = none from rfl, hr]
  simp only []
  refine ⟨?_, ?_, ?_⟩
  · show some (finalAnalysisResult _ _).probabilityAI = _
    congr 1
    simp only [finalAnalysisResult]
    rw [hmaster.2.1, sumProbFrom_eq_sum]
    simp [initState]
  · show some (finalAnalysisResult _ _).confidence = _
    congr 1
    simp only [finalAnalysisResult]
    rw [hmaster.2.2.1, sumConfFrom_eq_sum]
    simp [initState]
  · intro frames hframes
    have hlast := sessionLoop_allSucc_last item.id
      (schedule videoDuration sampleInterval).length oc frames
      (schedule videoDuration sampleInterval) 0 initState
      (updateQueueItem queue item.id
        (fun it => { it with
          totalSegments := some (schedule videoDuration sampleInterval).length,
          segmentsProcessed := some 0, status := "analyzing" }))
      (schedule_ne_nil videoDuration sampleInterval)
      (fun j hj => by simpa using hframes j hj)
    rw [hlast.1]
    simp only [Option.map_some, Nat.zero_add]
    simp only [progressiveResult]
    rw [hmaster.2.1, sumProbFrom_eq_sum]
    have hsum : (∑ j ∈ Finset.range (schedule videoDuration sampleInterval).length,
          probOf (oc (0 + j)))
        = ∑ j ∈ Finset.range (schedule videoDuration sampleInterval).length,
            (frames j).probabilityAI := by
      apply Finset.sum_congr rfl
      intro j hj
      rw [show (0 + j) = j by omega, hframes j (Finset.mem_range.mp hj), probOf]
    rw [hsum]
    simp [initState]

/-- C2 counterexample: in the spec's own 12-second / interval-5 scenario
(t = 5 fails classification, t = 0 and t = 10 would succeed with
probabilities 80 and 60), the session is aborted by the single bad frame:
the item moves to "error", `segmentsProcessed` stops at 1 (not 2), the
frame at t = 10 is never dispatched, and no final composite (in
particular none with probability 70) is ever published. -/
theorem C2_counterexample :
    (handleProgressiveVideoAnalysis c2item 12 5 oc12 [c2item]).finalPublished = none
    ∧ (handleProgressiveVideoAnalysis c2item 12 5 oc12 [c2item]).queue.map
          (fun it => (it.status, it.error, it.segmentsProcessed, it.totalSegments))
        = [("error", some "Network error", some 1, some 3)]
    ∧ (handleProgressiveVideoAnalysis c2item 12 5 oc12 [c2item]).dispatched = [0, 5]
    ∧ ("error" : String) ≠ "done" := by
  rw [c2run_eq]
  refine ⟨rfl, ?_, rfl, by decide⟩
  simp [updateQueueItem, c2item]

/-- C2 witness: the abort-at-first-classification-error statement applied
to the concrete scenario loop. -/
theorem C2_classify_error_aborts_witness :
    (∀ j < ([0] : List ℚ).length, isClassifyError (oc12 (0 + j)) = false)
    ∧ oc12 (0 + ([0] : List ℚ).length) = FrameOutcome.classifyError "Network error"
    ∧ sessionLoop "w2" 3 oc12 ([0] ++ 5 :: [10]) 0 initState []
      = ⟨(sessionLoop "w2" 3 oc12 [0] 0 initState []).st,
         (sessionLoop "w2" 3 oc12 [0] 0 initState []).queue,
         (sessionLoop "w2" 3 oc12 [0] 0 initState []).dispatched ++ [5],
         (sessionLoop "w2" 3 oc12 [0] 0 initState []).intermediates,
         some "Network error"⟩ :=
  ⟨fun j hj => by
      have hj1 : j = 0 := by simpa using hj
      subst hj1
      rfl,
    rfl,
    (C2_classify_error_aborts "w2" 3 oc12 [0] 5 [10] 0 initState [] "Network error"
      (fun j hj => by
        have hj1 : j = 0 := by simpa using hj
        subst hj1
        rfl)
      rfl).1⟩

def c1item : QueueItem := ⟨"c1", "ready", some "blob:v", none, none, none, none⟩

/-- Oracle with a capture failure at position 0 and a successful
classification (probability 80) at position 1. -/
def oc21 : ℕ → FrameOutcome :=
  fun j => if j = 0 then FrameOutcome.captureFailed else FrameOutcome.classified fr80

/-- C1 counterexample: a two-segment schedule in which the first capture
fails and the second frame folds with probability 80.  Exactly one
FrameResult is folded (N = 1), so the claim requires
`probabilityAI = round(80 / 1) = 80` after that fold and at finalization;
the code instead publishes `round(80 / 2) = 40` in both places, because
it divides by the schedule position (2) and by `totalSegments` (2), not
by the number of folds. -/
theorem C1_counterexample :
    (handleProgressiveVideoAnalysis c1item 2 1 oc21 [c1item]).intermediates.map
        (fun pr => (pr.1.probabilityAI, pr.2))
      = [(40, 2)]
    ∧ (handleProgressiveVideoAnalysis c1item 2 1 oc21 [c1item]).intermediates.length = 1
    ∧ (handleProgressiveVideoAnalysis c1item 2 1 oc21 [c1item]).finalPublished.map
        (fun r => r.probabilityAI)
      = some 40
    ∧ (40 : ℚ) ≠ 80 := by
  have hsched : schedule 2 1 = [0, 1] := by
    norm_num [schedule, sampleLoop_pos, sampleLoop_neg]
  have hrun : handleProgressiveVideoAnalysis c1item 2 1 oc21 [c1item]
      = (let q1 := updateQueueItem [c1item] "c1"
           (fun it => { it with totalSegments := some 2,
                                segmentsProcessed := some 0, status := "analyzing" })
         let st1 := foldFrame initState fr80
         let prog := progressiveResult 2 2 st1 fr80
         let q2 := updateQueueItem q1 "c1"
           (fun it => { it with segmentsProcessed := some 2, result := some prog })
         let fin := finalAnalysisResult 2 st1
         ⟨updateQueueItem q2 "c1"
             (fun it => { it with status := "done", result := some fin,
                                  segmentsProcessed := some 2 }),
           [1], [(prog, 2)], some fin⟩) := by
    rw [handler_eq c1item 2 1 oc21 [c1item] "blob:v" rfl (by decide)]
    simp only [hsched, c1item, List.length_cons, List.length_nil, Nat.zero_add,
      Nat.reduceAdd]
    rw [sessionLoop_cons_captureFailed "c1" 2 0 [1] initState _
      (show oc21 0 = FrameOutcome.captureFailed from rfl)]
    rw [sessionLoop_cons_classified "c1" 2 1 [] initState _
      (show oc21 1 = FrameOutcome.classified fr80 from rfl)]
    simp only []
    rw [sessionLoop_nil]
    rfl
  rw [hrun]
  refine ⟨?_, rfl, ?_, by norm_num⟩
  · simp only [List.map_cons, List.map_nil]
    norm_num [progressiveResult, foldFrame, initState, fr80, mathRound, round_eq,
      Int.floor_eq_iff]
  · simp only [Option.map_some]
    norm_num [finalAnalysisResult, foldFrame, initState, fr80, mathRound, round_eq,
      Int.floor_eq_iff]

/-- C1 witness: the amended statement applied to a one-segment schedule
whose only frame classifies with probability 80. -/
theorem C1_divisor_totalSegments_witness :
    ((⟨"w1", "ready", some "u", none, none, none, none⟩ : QueueItem).previewUrl = some "u")
    ∧ ("u" : String) ≠ ""
    ∧ (∀ j < (schedule 1 5).length,
        isClassifyError ((fun _ => FrameOutcome.classified fr80) j) = false)
    ∧ ((List.range (schedule 1 5).length).any
        (fun j => isClassified ((fun _ => FrameOutcome.classified fr80) j))) = true
    ∧ (handleProgressiveVideoAnalysis ⟨"w1", "ready", some "u", none, none, none, none⟩
          1 5 (fun _ => FrameOutcome.classified fr80) []).finalPublished.map
        (fun r => r.probabilityAI)
      = some (mathRound
          ((∑ j ∈ Finset.range (schedule 1 5).length,
              probOf ((fun _ => FrameOutcome.classified fr80) j))
            / ((schedule 1 5).length : ℚ))) :=
  ⟨rfl, by decide, fun _ _ => rfl,
    by
      rw [show schedule 1 5 = [0] from by
        norm_num [schedule, sampleLoop_pos, sampleLoop_neg]]
      rfl,
    (C1_divisor_totalSegments ⟨"w1", "ready", some "u", none, none, none, none⟩ "u" 1 5
      (fun _ => FrameOutcome.classified fr80) [] rfl (by decide) (fun _ _ => rfl)
      (by
        rw [show schedule 1 5 = [0] from by
          norm_num [schedule, sampleLoop_pos, sampleLoop_neg]]
        rfl)).1⟩

/-- C8 (amended): the divisor used for a composite published at schedule
position `i` is `i + 1` — it counts every schedule position passed,
including skipped frames, so the published `segmentsProcessed` values are
exactly the 1-based positions of the folded frames (`countsFrom`), not a
fold counter; nevertheless, when every classified frame carries
probability and confidence in `[0, 100]`, every published intermediate
and final composite also has probability and confidence in `[0, 100]`. -/
theorem C8_range_invariant (item : QueueItem) (u : String)
    (videoDuration sampleInterval : ℚ) (oc : ℕ → FrameOutcome) (queue : List QueueItem)
    (hprev : item.previewUrl = some u) (hu : u ≠ "")
    (hok : ∀ j < (schedule videoDuration sampleInterval).length,
      okOutcome (oc j) = true) :
    (∀ pr ∈ (handleProgressiveVideoAnalysis item videoDuration sampleInterval
        oc queue).intermediates,
      0 ≤ pr.1.probabilityAI ∧ pr.1.probabilityAI ≤ 100 ∧
      0 ≤ pr.1.confidence ∧ pr.1.confidence ≤ 100)
    ∧ (handleProgressiveVideoAnalysis item videoDuration sampleInterval
          oc queue).intermediates.map (fun pr => pr.2)
        = countsFrom oc 0 (schedule videoDuration sampleInterval).length
    ∧ (∀ f, (handleProgressiveVideoAnalysis item videoDuration sampleInterval
          oc queue).finalPublished = some f →
        0 ≤ f.probabilityAI ∧ f.probabilityAI ≤ 100 ∧
        0 ≤ f.confidence ∧ f.confidence ≤ 100) := by
  rw [handler_eq item videoDuration sampleInterval oc queue u hprev hu]
  simp only []
  have hok0 : ∀ j < (schedule videoDuration sampleInterval).length,
      okOutcome (oc (0 + j)) = true := by
    intro j hj
    simpa using hok j hj
  have hbounds := sessionLoop_interm_bounds item.id
    (schedule videoDuration sampleInterval).length oc
    (schedule videoDuration sampleInterval) 0 initState
    (updateQueueItem queue item.id
      (fun it => { it with
        totalSegments := some (schedule videoDuration sampleInterval).length,
        segmentsProcessed := some 0, status := "analyzing" }))
    hok0 (le_refl 0) (by norm_num [initState]) (le_refl 0) (by norm_num [initState])
  have hcounts := sessionLoop_counts item.id
    (schedule videoDuration sampleInterval).length oc
    (schedule videoDuration sampleInterval) 0 initState
    (updateQueueItem queue item.id
      (fun it => { it with
        totalSegments := some (schedule videoDuration sampleInterval).length,
        segmentsProcessed := some 0, status := "analyzing" }))
  have hstb := sessionLoop_state_bounds item.id
    (schedule videoDuration sampleInterval).length oc
    (schedule videoDuration sampleInterval) 0 initState
    (updateQueueItem queue item.id
      (fun it => { it with
        totalSegments := some (schedule videoDuration sampleInterval).length,
        segmentsProcessed := some 0, status := "analyzing" }))
    hok0 (le_refl 0) (by norm_num [initState]) (le_refl 0) (by norm_num [initState])
  have hfin : ∀ f, finalAnalysisResult (schedule videoDuration sampleInterval).length
        (sessionLoop item.id (schedule videoDuration sampleInterval).length oc
          (schedule videoDuration sampleInterval) 0 initState
          (updateQueueItem queue item.id
            (fun it => { it with
              totalSegments := some (schedule videoDuration sampleInterval).length,
              segmentsProcessed := some 0, status := "analyzing" }))).st = f →
      0 ≤ f.probabilityAI ∧ f.probabilityAI ≤ 100 ∧
      0 ≤ f.confidence ∧ f.confidence ≤ 100 := by
    intro f hf
    subst hf
    simp only [finalAnalysisResult]
    have hN : 0 < (schedule videoDuration sampleInterval).length :=
      schedule_length_pos videoDuration sampleInterval
    have hp := mathRound_avg_bounds hN hstb.1 (by
      have := hstb.2.1
      simpa using this)
    have hc := mathRound_avg_bounds hN hstb.2.2.1 (by
      have := hstb.2.2.2
      simpa using this)
    exact ⟨hp.1, hp.2, hc.1, hc.2⟩
  rcases hth : (sessionLoop item.id (schedule videoDuration sampleInterval).length oc
      (schedule videoDuration sampleInterval) 0 initState
      (updateQueueItem queue item.id
        (fun it => { it with
          totalSegments := some (schedule videoDuration sampleInterval).length,
          segmentsProcessed := some 0, status := "analyzing" }))).thrown with
    _ | msg
  · simp only [hth]
    rcases hlr : (sessionLoop item.id (schedule videoDuration sampleInterval).length oc
        (schedule videoDuration sampleInterval) 0 initState
        (updateQueueItem queue item.id
          (fun it => { it with
            totalSegments := some (schedule videoDuration sampleInterval).length,
            segmentsProcessed := some 0, status := "analyzing" }))).st.lastResult with
      _ | r
    · simp only [hlr]
      exact ⟨hbounds, hcounts, fun f hf => by simp at hf⟩
    · simp only [hlr]
      refine ⟨hbounds, hcounts, fun f hf => ?_⟩
      have hf2 : finalAnalysisResult (schedule videoDuration sampleInterval).length
          (sessionLoop item.id (schedule videoDuration sampleInterval).length oc
            (schedule videoDuration sampleInterval) 0 initState
            (updateQueueItem queue item.id
              (fun it => { it with
                totalSegments := some (schedule videoDuration sampleInterval).length,
                segmentsProcessed := some 0, status := "analyzing" }))).st = f := by
        simpa using hf
      exact hfin f hf2
  · simp only [hth]
    exact ⟨hbounds, hcounts, fun f hf => by simp at hf⟩

def fr90 : AnalysisResult := ⟨90, "Likely AI", 90, "", []⟩

def c8item : QueueItem := ⟨"c8", "ready", some "blob:v", none, none, none, none⟩

/-- Oracle with capture failures at positions 0 and 1 and one successful
classification (probability 90) at position 2. -/
def oc31 : ℕ → FrameOutcome :=
  fun j => if j < 2 then FrameOutcome.captureFailed else FrameOutcome.classified fr90

/-- C8 counterexample: on a three-segment schedule with the first two
captures failing, the single fold publishes `segmentsProcessed = 3` even
though only 1 FrameResult has been folded, and its average divides the
folded sum 90 by 3 (giving 30), not by the fold count 1 — refuting the
invariant that the running count equals the number of folds. -/
theorem C8_counterexample :
    (handleProgressiveVideoAnalysis c8item 3 1 oc31 [c8item]).intermediates.map
        (fun pr => (pr.1.probabilityAI, pr.2))
      = [(30, 3)]
    ∧ (handleProgressiveVideoAnalysis c8item 3 1 oc31 [c8item]).intermediates.length = 1
    ∧ (3 : ℕ) ≠ 1
    ∧ (30 : ℚ) ≠ 90 := by
  have hsched : schedule 3 1 = [0, 1, 2] := by
    norm_num [schedule, sampleLoop_pos, sampleLoop_neg]
  have hrun : handleProgressiveVideoAnalysis c8item 3 1 oc31 [c8item]
      = (let q1 := updateQueueItem [c8item] "c8"
           (fun it => { it with totalSegments := some 3,
                                segmentsProcessed := some 0, status := "analyzing" })
         let st1 := foldFrame initState fr90
         let prog := progressiveResult 3 3 st1 fr90
         let q2 := updateQueueItem q1 "c8"
           (fun it => { it with segmentsProcessed := some 3, result := some prog })
         let fin := finalAnalysisResult 3 st1
         ⟨updateQueueItem q2 "c8"
             (fun it => { it with status := "done", result := some fin,
                                  segmentsProcessed := some 3 }),
           [2], [(prog, 3)], some fin⟩) := by
    rw [handler_eq c8item 3 1 oc31 [c8item] "blob:v" rfl (by decide)]
    simp only [hsched, c8item, List.length_cons, List.length_nil, Nat.zero_add,
      Nat.reduceAdd]
    rw [sessionLoop_cons_captureFailed "c8" 3 0 [1, 2] initState _
      (show oc31 0 = FrameOutcome.captureFailed from rfl)]
    rw [sessionLoop_cons_captureFailed "c8" 3 1 [2] initState _
      (show oc31 1 = FrameOutcome.captureFailed from rfl)]
    rw [sessionLoop_cons_classified "c8" 3 2 [] initState _
      (show oc31 2 = FrameOutcome.classified fr90 from rfl)]
    simp only []
    rw [sessionLoop_nil]
    rfl
  rw [hrun]
  refine ⟨?_, rfl, by decide, by norm_num⟩
  simp only [List.map_cons, List.map_nil]
  norm_num [progressiveResult, foldFrame, initState, fr90, mathRound, round_eq,
    Int.floor_eq_iff]

/-- C8 witness: the amended statement applied to the 12-second scenario
oracle (whose outcomes are all in range). -/
theorem C8_range_invariant_witness :
    ((⟨"w8", "ready", some "u", none, none, none, none⟩ : QueueItem).previewUrl = some "u")
    ∧ ("u" : String) ≠ ""
    ∧ (∀ j < (schedule 12 5).length, okOutcome (oc12 j) = true)
    ∧ (handleProgressiveVideoAnalysis ⟨"w8", "ready", some "u", none, none, none, none⟩
          12 5 oc12 []).intermediates.map (fun pr => pr.2)
      = countsFrom oc12 0 (schedule 12 5).length :=
  ⟨rfl, by decide,
    by
      rw [show schedule 12 5 = [0, 5, 10] from by
        norm_num [schedule, sampleLoop_pos, sampleLoop_neg]]
      intro j hj
      have hj3 : j < 3 := by simpa using hj
      interval_cases j <;> decide,
    (C8_range_invariant ⟨"w8", "ready", some "u", none, none, none, none⟩ "u" 12 5
      oc12 [] rfl (by decide)
      (by
        rw [show schedule 12 5 = [0, 5, 10] from by
          norm_num [schedule, sampleLoop_pos, sampleLoop_neg]]
        intro j hj
        have hj3 : j < 3 := by simpa using hj
        interval_cases j <;> decide)).2.1⟩

/-- Modelled from the spec: the two-way in-progress label rule. -/
def specProgressiveLabel (p : ℚ) : String :=
  if 50 < p then "Likely AI" else "Likely Human"

/-- Modelled from the spec: the three-way finalized label rule. -/
def specFinalLabel (p : ℚ) : String :=
  if 50 < p then "Likely AI" else if 30 < p then "Mixed/Uncertain" else "Likely Human"

/-- C9: when every scheduled frame is captured and classified
successfully, a final result is published and its probability, confidence
and key features are identical to those of the last published
intermediate result; finalization changes only the label (recomputed with
the three-way rule instead of the two-way rule) and the reasoning text. -/
theorem C9_final_equals_last_intermediate (item : QueueItem) (u : String)
    (videoDuration sampleInterval : ℚ) (frames : ℕ → AnalysisResult)
    (queue : List QueueItem)
    (hprev : item.previewUrl = some u) (hu : u ≠ "") :
    ((handleProgressiveVideoAnalysis item videoDuration sampleInterval
        (fun j => FrameOutcome.classified (frames j)) queue).finalPublished).isSome = true
    ∧ (handleProgressiveVideoAnalysis item videoDuration sampleInterval
          (fun j => FrameOutcome.classified (frames j)) queue).finalPublished.map
        (fun r => r.probabilityAI)
      = (handleProgressiveVideoAnalysis item videoDuration sampleInterval
          (fun j => FrameOutcome.classified (frames j)) queue).intermediates.getLast?.map
        (fun pr => pr.1.probabilityAI)
    ∧ (handleProgressiveVideoAnalysis item videoDuration sampleInterval
          (fun j => FrameOutcome.classified (frames j)) queue).finalPublished.map
        (fun r => r.confidence)
      = (handleProgressiveVideoAnalysis item videoDuration sampleInterval
          (fun j => FrameOutcome.classified (frames j)) queue).intermediates.getLast?.map
        (fun pr => pr.1.confidence)
    ∧ (handleProgressiveVideoAnalysis item videoDuration sampleInterval
          (fun j => FrameOutcome.classified (frames j)) queue).finalPublished.map
        (fun r => r.keyFeatures)
      = (handleProgressiveVideoAnalysis item videoDuration sampleInterval
          (fun j => FrameOutcome.classified (frames j)) queue).intermediates.getLast?.map
        (fun pr => pr.1.keyFeatures)
    ∧ (handleProgressiveVideoAnalysis item videoDuration sampleInterval
          (fun j => FrameOutcome.classified (frames j)) queue).finalPublished.map
        (fun r => r.label)
      = (handleProgressiveVideoAnalysis item videoDuration sampleInterval
          (fun j => FrameOutcome.classified (frames j)) queue).finalPublished.map
        (fun r => specFinalLabel r.probabilityAI)
    ∧ (handleProgressiveVideoAnalysis item videoDuration sampleInterval
          (fun j => FrameOutcome.classified (frames j)) queue).intermediates.getLast?.map
        (fun pr => pr.1.label)
      = (handleProgressiveVideoAnalysis item videoDuration sampleInterval
          (fun j => FrameOutcome.classified (frames j)) queue).intermediates.getLast?.map
        (fun pr => specProgressiveLabel pr.1.probabilityAI) := by
  rw [handler_eq item videoDuration sampleInterval
    (fun j => FrameOutcome.classified (frames j)) queue u hprev hu]
  simp only []
  have hmaster := sessionLoop_noThrow item.id
    (schedule videoDuration sampleInterval).length
    (fun j => FrameOutcome.classified (frames j))
    (schedule videoDuration sampleInterval) 0 initState
    (updateQueueItem queue item.id
      (fun it => { it with
        totalSegments := some (schedule videoDuration sampleInterval).length,
        segmentsProcessed := some 0, status := "analyzing" }))
    (fun _ _ => rfl)
  have hlast := sessionLoop_allSucc_last item.id
    (schedule videoDuration sampleInterval).length
    (fun j => FrameOutcome.classified (frames j)) frames
    (schedule videoDuration sampleInterval) 0 initState
    (updateQueueItem queue item.id
      (fun it => { it with
        totalSegments := some (schedule videoDuration sampleInterval).length,
        segmentsProcessed := some 0, status := "analyzing" }))
    (schedule_ne_nil videoDuration sampleInterval)
    (fun _ _ => rfl)
  rw [hmaster.1]
  simp only []
  rw [hlast.2.2]
  simp only []
  rw [hlast.1]
  simp only [Option.isSome_some, Option.map_some, Nat.zero_add]
  refine ⟨by simp, ?_, ?_, ?_, ?_, ?_⟩
  · simp [finalAnalysisResult, progressiveResult]
  · simp [finalAnalysisResult, progressiveResult]
  · simp [finalAnalysisResult, progressiveResult]
  · simp [finalAnalysisResult, specFinalLabel]
  · simp [progressiveResult, specProgressiveLabel]

/-- C9 witness: applied to a one-segment schedule with a constant
classifier. -/
theorem C9_final_equals_last_intermediate_witness :
    ((⟨"w9", "ready", some "u", none, none, none, none⟩ : QueueItem).previewUrl = some "u")
    ∧ ("u" : String) ≠ ""
    ∧ ((handleProgressiveVideoAnalysis ⟨"w9", "ready", some "u", none, none, none, none⟩
          1 5 (fun j => FrameOutcome.classified ((fun _ => fr80) j)) []).finalPublished).isSome
        = true :=
  ⟨rfl, by decide,
    (C9_final_equals_last_intermediate ⟨"w9", "ready", some "u", none, none, none, none⟩
      "u" 1 5 (fun _ => fr80) [] rfl (by decide)).1⟩

def c7item : QueueItem := ⟨"c7", "ready", some "blob:v", none, none, none, none⟩

def oc80 : ℕ → FrameOutcome := fun _ => FrameOutcome.classified fr80

/-- C7 (amended): the loop never observes cancellation: removing the item
from the queue at any suspension point changes nothing but the queue —
the aggregates, the dispatched classification calls, the published
intermediates and the thrown state are all identical to the uncancelled
run (for *any* queues); and once the item is gone from the queue, every
later publish is a no-op on it. -/
theorem C7_cancellation_not_observed (cancelAt : ℕ) (itemId : String) (tot : ℕ)
    (oc : ℕ → FrameOutcome) (ts : List ℚ) (i : ℕ) (st : LoopState)
    (q q' : List QueueItem) :
    ((sessionLoopCancelAt cancelAt itemId tot oc ts i st q).st
        = (sessionLoop itemId tot oc ts i st q').st
      ∧ (sessionLoopCancelAt cancelAt itemId tot oc ts i st q).dispatched
        = (sessionLoop itemId tot oc ts i st q').dispatched
      ∧ (sessionLoopCancelAt cancelAt itemId tot oc ts i st q).intermediates
        = (sessionLoop itemId tot oc ts i st q').intermediates
      ∧ (sessionLoopCancelAt cancelAt itemId tot oc ts i st q).thrown
        = (sessionLoop itemId tot oc ts i st q').thrown)
    ∧ (∀ (qq : List QueueItem) (iid : String) (upd : QueueItem → QueueItem),
        (∀ it ∈ qq, it.id ≠ iid) → updateQueueItem qq iid upd = qq) :=
  ⟨sessionLoopCancelAt_fields cancelAt itemId tot oc ts i st q q',
   fun qq iid upd h => updateQueueItem_noop qq iid upd h⟩

/-- C7 counterexample: cancelling (removing the item) after 1 of 5
scheduled frames has been folded does *not* stop the loop: classification
calls are still dispatched for all five timestamps (not just the first),
and four further intermediates are published — they simply no longer find
the item in the queue. -/
theorem C7_counterexample :
    (sessionLoopCancelAt 1 "c7" 5 oc80 [0, 1, 2, 3, 4] 0 initState [c7item]).dispatched
      = [0, 1, 2, 3, 4]
    ∧ ([0, 1, 2, 3, 4] : List ℚ) ≠ [0]
    ∧ (sessionLoopCancelAt 1 "c7" 5 oc80 [0, 1, 2, 3, 4] 0 initState [c7item]).queue = []
    ∧ (sessionLoopCancelAt 1 "c7" 5 oc80
        [0, 1, 2, 3, 4] 0 initState [c7item]).intermediates.length = 5 := by
  have hfields := sessionLoopCancelAt_fields 1 "c7" 5 oc80 [0, 1, 2, 3, 4] 0 initState
    [c7item] [c7item]
  have hmaster := sessionLoop_noThrow "c7" 5 oc80 [0, 1, 2, 3, 4] 0 initState [c7item]
    (fun _ _ => rfl)
  refine ⟨?_, ?_, ?_, ?_⟩
  · rw [hfields.2.1, hmaster.2.2.2.2.2]
    simp [dispatchedFrom, oc80]
  · intro h
    have hlen := congrArg List.length h
    simp at hlen
  · simp [sessionLoopCancelAt, oc80, updateQueueItem, c7item]
  · have hcounts := sessionLoop_counts "c7" 5 oc80 [0, 1, 2, 3, 4] 0 initState [c7item]
    have hlen : (sessionLoopCancelAt 1 "c7" 5 oc80
        [0, 1, 2, 3, 4] 0 initState [c7item]).intermediates.length
        = (countsFrom oc80 0 ([0, 1, 2, 3, 4] : List ℚ).length).length := by
      rw [hfields.2.2.1, ← hcounts, List.length_map]
    rw [hlen]
    simp [countsFrom, oc80]

end Veritas
